import Mathlib

/-!
Shallow embedding of the field-evaluation broadcasting pipeline of
`src/magpylib/_lib/fields/field_wrap_BH_level2.py` (function `getBH_level2` and its
helpers `tile_mag`, `tile_dim_cuboid`, `tile_dim_cylinder`, `tile_dim_cylinder_section`,
`tile_dia`, `tile_moment`, `tile_current`, `get_src_dict`), together with theorems
settling the frozen claims about it.

Modelling conventions:
- numpy float arrays are modelled over `ℚ` so that every definition is executable and
  witnesses can be checked by evaluation;
- a numpy array of 3-vectors is a `List Vec3` (or nested lists mirroring its axes);
- `scipy.spatial.transform.Rotation` objects are quaternions `Quat` in scipy's
  `(x, y, z, w)` component order; `Rotation.apply` is the exact rational rotation
  formula (scipy stores normalized quaternions; the formula below divides by the
  squared norm and therefore agrees with scipy on its normalized representatives
  while staying inside `ℚ`); `Rotation.inv` is quaternion conjugation;
- the caller-owned, in-place mutated path state of sources and sensors is an explicit
  store `ℕ → PathState` keyed by object identity, threaded through the pipeline;
- Python exceptions are an `Except`-style error value returned next to the store
  (the code performs no cleanup when it raises, so the store at raise time is the
  store the caller observes).
-/

namespace Magpylib

/-- A 3-component vector (one row of an `(..., 3)` numpy array). -/
@[ext]
structure Vec3 where
  x : ℚ
  y : ℚ
  z : ℚ
deriving DecidableEq, Repr

instance : Inhabited Vec3 := ⟨⟨0, 0, 0⟩⟩

/-- Componentwise vector addition. -/
def Vec3.add (a b : Vec3) : Vec3 := ⟨a.x + b.x, a.y + b.y, a.z + b.z⟩

instance : Add Vec3 := ⟨Vec3.add⟩

instance : Zero Vec3 := ⟨⟨0, 0, 0⟩⟩

/-- Scalar multiplication of a 3-vector. -/
def Vec3.smul (c : ℚ) (a : Vec3) : Vec3 := ⟨c * a.x, c * a.y, c * a.z⟩

instance : SMul ℚ Vec3 := ⟨Vec3.smul⟩

/-- Cross product of 3-vectors. -/
def Vec3.cross (a b : Vec3) : Vec3 :=
  ⟨a.y * b.z - a.z * b.y, a.z * b.x - a.x * b.z, a.x * b.y - a.y * b.x⟩

/-- A quaternion in scipy component order `(x, y, z, w)`. -/
@[ext]
structure Quat where
  x : ℚ
  y : ℚ
  z : ℚ
  w : ℚ
deriving DecidableEq, Repr

/-- The unit quaternion `[0, 0, 0, 1]` (the code's `unitQ`), the identity rotation. -/
def Quat.unit : Quat := ⟨0, 0, 0, 1⟩

instance : Inhabited Quat := ⟨Quat.unit⟩

/-- Squared norm of a quaternion. -/
def Quat.normSq (q : Quat) : ℚ := q.x * q.x + q.y * q.y + q.z * q.z + q.w * q.w

/-- Imaginary part of a quaternion as a 3-vector. -/
def Quat.vec (q : Quat) : Vec3 := ⟨q.x, q.y, q.z⟩

/-- Rotation of a vector by a quaternion (`scipy Rotation.apply`): the standard
formula `v + (2/‖q‖²) (w (u × v) + u × (u × v))` with `u` the imaginary part,
exact over `ℚ` and agreeing with scipy on normalized quaternions. -/
def Quat.apply (q : Quat) (v : Vec3) : Vec3 :=
  v + (2 / q.normSq) • (q.w • (q.vec.cross v) + q.vec.cross (q.vec.cross v))

/-- Quaternion conjugate: the inverse rotation (`scipy Rotation.inv`). -/
def Quat.conj (q : Quat) : Quat := ⟨-q.x, -q.y, -q.z, q.w⟩

/-- The path state of one source or sensor: its `_position` sequence and its
`_orientation` quaternion sequence (`scipy Rotation.as_quat`). -/
structure PathState where
  position : List Vec3
  orientation : List Quat
deriving DecidableEq, Repr

/-- The mutable caller-owned object state: a store mapping object identities to
their current path state.  In-place mutation of `obj.position` / `obj.orientation`
is modelled as a store update at the object's key. -/
def Store := ℕ → PathState

/-- Store update at one object key. -/
def Store.set (st : Store) (i : ℕ) (p : PathState) : Store :=
  fun j => if j = i then p else st j

/-- A source object: its identity key into the store, its `_object_type` tag and the
static attributes the tiling helpers of `field_wrap_BH_level2.py` read. -/
structure SrcObj where
  id : ℕ
  objectType : String
  magnetization : Vec3
  dimension : List ℚ
  diameter : ℚ
  moment : Vec3
  current : ℚ
  vertices : List Vec3
deriving DecidableEq, Repr

instance : Inhabited SrcObj := ⟨⟨0, "", default, [], 0, default, 0, []⟩⟩

/-- A sensor object: its identity key, its pixel array reshaped to `(-1, 3)`, and the
pixel array shape `pixel.shape` used for the output shape contract. -/
structure SensorObj where
  id : ℕ
  pixel : List Vec3
  pixShape : List ℕ
deriving DecidableEq, Repr

/-- One top-level entry of the `sources` argument: either a bare source object or a
Collection of sources (`class_Collection.py` stores an ordered duplicate-free list;
the spec pre-expands nested Collections to this flat member list). -/
inductive SrcInput where
  | src (s : SrcObj)
  | col (sources : List SrcObj)
deriving DecidableEq, Repr

/-- The per-row type-specific packed fields handed to a field kernel, one constructor
per branch of `get_src_dict` (spec section 4.4 table). -/
inductive KernelFields where
  | sphere (magnetization : Vec3) (diameter : ℚ)
  | cuboid (magnetization : Vec3) (dimension : List ℚ)
  | cylinder (magnetization : Vec3) (dimension : List ℚ)
  | cylinderSegment (magnetization : Vec3) (dimension : List ℚ)
  | dipole (moment : Vec3)
  | circular (current : ℚ) (diameter : ℚ)
  | line (current : ℚ) (vertices : List Vec3)
deriving DecidableEq, Repr

/-- An abstract per-row field kernel: given the `bh` flag (True = B, False = H), the
packed type-specific fields, the source position and orientation of the row and the
observer point of the row, it returns the field vector of that row.  The geometry
kernels themselves are external pure functions per the spec. -/
def Kernel := Bool → KernelFields → Vec3 → Quat → Vec3 → Vec3

/-- The error classes `getBH_level2` can raise: `MagpylibBadUserInput` and
`MagpylibInternalError` (`magpylib._lib.exceptions`). -/
inductive Err where
  | badUserInput
  | internalError
deriving DecidableEq, Repr

/-- The dense result: its numpy shape and its row-major data flattened to a list of
3-vectors (the trailing axis of length 3 stays inside `Vec3`). -/
structure Output where
  shape : List ℕ
  data : List Vec3
deriving DecidableEq, Repr

/-- Source-path × path-step × pixel-column block, the shape `(l, m, n_pix, 3)`
working array `B` of `getBH_level2`. -/
abbrev Rank3 := List (List (List Vec3))

/-- Path-step × pixel-column block, one leading-axis row of `B`. -/
abbrev Rank2 := List (List Vec3)

/-- Modelled from the spec: `all_same` (imported from `magpylib._lib.utility`, whose
source is not under `src/`) tests whether all entries of a list are identical. -/
def all_same {α : Type} [DecidableEq α] (l : List α) : Bool :=
  match l with
  | [] => true
  | x :: xs => xs.all (fun y => decide (y = x))

/-- Modelled from the spec: `format_src_inputs` (imported from
`magpylib._lib.utility`, whose source is not under `src/`) returns the ordered list
of top-level source entries and the ordered source list with Collections flattened
to their member lists. -/
def format_src_inputs (sourcesIn : List SrcInput) : List SrcInput × List SrcObj :=
  (sourcesIn,
    sourcesIn.flatMap (fun s =>
      match s with
      | .src x => [x]
      | .col ss => ss))

/-- Modelled from the spec: `check_static_sensor_orient` (imported from
`magpylib._lib.utility`, whose source is not under `src/`) flags, per sensor, whether
it has a single distinct orientation along its whole path ("static sensor or
translation path"). -/
def check_static_sensor_orient (st : Store) (sensors : List SensorObj) : List Bool :=
  sensors.map (fun s =>
    match (st s.id).orientation with
    | [] => true
    | q :: qs => qs.all (fun r => decide (r = q)))

/-- Embeds `tile_mag` (lines 10-15): `np.tile` of the `(lg, 3)` magnetization array by
`n_pp` along its last axis followed by `reshape((-1, 3))` repeats each source's
magnetization `n_pp` times in a per-source block (source index varies slowest). -/
def tile_mag (group : List SrcObj) (n_pp : ℕ) : List Vec3 :=
  group.flatMap (fun src => List.replicate n_pp src.magnetization)

/-- Embeds `tile_dim_cuboid` (lines 18-23): same `(lg, 3)` tiling pattern as
`tile_mag`, applied to the cuboid dimension triples. -/
def tile_dim_cuboid (group : List SrcObj) (n_pp : ℕ) : List (List ℚ) :=
  group.flatMap (fun src => List.replicate n_pp src.dimension)

/-- Embeds `tile_dim_cylinder` (lines 26-31): same per-source block tiling of the
`(lg, 2)` cylinder dimension rows. -/
def tile_dim_cylinder (group : List SrcObj) (n_pp : ℕ) : List (List ℚ) :=
  group.flatMap (fun src => List.replicate n_pp src.dimension)

/-- Embeds `tile_dim_cylinder_section` (lines 34-39): same per-source block tiling of
the `(lg, 5)` cylinder segment dimension rows. -/
def tile_dim_cylinder_section (group : List SrcObj) (n_pp : ℕ) : List (List ℚ) :=
  group.flatMap (fun src => List.replicate n_pp src.dimension)

/-- Embeds `tile_dia` (lines 42-47): `np.tile` of the one-dimensional `(lg,)` diameter
array by `n_pp` concatenates `n_pp` whole copies of the diameter vector (source index
varies fastest), and `flatten` leaves that unchanged.  Note this row order differs
from the per-source block order of `tile_mag`. -/
def tile_dia (group : List SrcObj) (n_pp : ℕ) : List ℚ :=
  (List.replicate n_pp (group.map (fun src => src.diameter))).flatten

/-- Embeds `tile_moment` (lines 50-55): per-source block tiling of the `(lg, 3)`
moment rows, as in `tile_mag`. -/
def tile_moment (group : List SrcObj) (n_pp : ℕ) : List Vec3 :=
  group.flatMap (fun src => List.replicate n_pp src.moment)

/-- Embeds `tile_current` (lines 58-63): `np.tile` of the one-dimensional `(lg,)`
current array by `n_pp`, concatenating `n_pp` whole copies (source index varies
fastest), as in `tile_dia`. -/
def tile_current (group : List SrcObj) (n_pp : ℕ) : List ℚ :=
  (List.replicate n_pp (group.map (fun src => src.current))).flatten

/-- The dictionary built by `get_src_dict` for one same-type group: the packed
per-row kernel fields together with the tiled position, orientation and observer
rows handed to `getBH_level1`. -/
structure SrcDict where
  source_type : String
  fields : List KernelFields
  position : List Vec3
  orientation : List Quat
  observer : List Vec3
deriving Repr

/-- Embeds `get_src_dict` (lines 66-131).  The basic attributes: `posv` is the
`(lg, m, 3)` position array tiled by `n_pix` on its last axis and reshaped to
`(-1, 3)`, i.e. each path position repeated `n_pix` times inside per-source blocks;
`rotv` likewise for the orientation quaternions; `posov` is `np.tile(poso, (lg, 1))`,
the whole observer array repeated once per source.  The branch on
`group[0]._object_type` packs the type-specific excitation and dimension rows; an
unknown type tag raises `MagpylibInternalError`.  The `Line` branch keeps the
per-source current and vertex list untiled in the Python dict and
`get_BH_line_from_vert` tiles internally (line 124), so its per-row fields are the
per-source values replicated `n_pp` times. -/
def get_src_dict (st : Store) (group : List SrcObj) (n_pix n_pp : ℕ)
    (poso : List Vec3) : Except Err SrcDict :=
  let posv := group.flatMap (fun src =>
    (st src.id).position.flatMap (fun p => List.replicate n_pix p))
  let rotv := group.flatMap (fun src =>
    (st src.id).orientation.flatMap (fun r => List.replicate n_pix r))
  let posov := group.flatMap (fun _ => poso)
  let src_type := (group.headD default).objectType
  if src_type = "Sphere" then
    .ok ⟨src_type,
      List.zipWith KernelFields.sphere (tile_mag group n_pp) (tile_dia group n_pp),
      posv, rotv, posov⟩
  else if src_type = "Cuboid" then
    .ok ⟨src_type,
      List.zipWith KernelFields.cuboid (tile_mag group n_pp) (tile_dim_cuboid group n_pp),
      posv, rotv, posov⟩
  else if src_type = "Cylinder" then
    .ok ⟨"Cylinder",
      List.zipWith KernelFields.cylinder (tile_mag group n_pp) (tile_dim_cylinder group n_pp),
      posv, rotv, posov⟩
  else if src_type = "CylinderSegment" then
    .ok ⟨"CylinderSegment",
      List.zipWith KernelFields.cylinderSegment (tile_mag group n_pp)
        (tile_dim_cylinder_section group n_pp),
      posv, rotv, posov⟩
  else if src_type = "Dipole" then
    .ok ⟨src_type, (tile_moment group n_pp).map KernelFields.dipole, posv, rotv, posov⟩
  else if src_type = "Circular" then
    .ok ⟨src_type,
      List.zipWith KernelFields.circular (tile_current group n_pp) (tile_dia group n_pp),
      posv, rotv, posov⟩
  else if src_type = "Line" then
    .ok ⟨src_type,
      group.flatMap (fun src =>
        List.replicate n_pp (KernelFields.line src.current src.vertices)),
      posv, rotv, posov⟩
  else
    .error Err.internalError

/-- Modelled from the spec: `getBH_level1` (from
`magpylib._lib.fields.field_wrap_BH_level1`, whose source is not under `src/`)
invokes the type's closed-form field kernel once for the whole packed group; the
kernel is an external pure function that maps the packed tensors row-wise to a dense
`(lg * n_pp, 3)` field array. -/
def getBH_level1 (K : Kernel) (bh : Bool) (d : SrcDict) : List Vec3 :=
  List.zipWith (fun f pro => K bh f pro.1 pro.2.1 pro.2.2)
    d.fields (d.position.zip (d.orientation.zip d.observer))

/-- Path lengths `[len(obj._position) for obj in obj_list]` (line 215). -/
def pathLengthsOf (st : Store) (objList : List ℕ) : List ℕ :=
  objList.map (fun i => (st i).position.length)

/-- The common maximum path length `m = max(path_lengths)` (line 216). -/
def maxPathLength (st : Store) (objList : List ℕ) : ℕ :=
  (pathLengthsOf st objList).foldr max 0

/-- The objects to tile up and reset, paired with their original lengths: the
`zip(obj_list, mask_reset)` filtering of lines 219-221, keeping `(obj, m0)` for every
object whose path length differs from `m`. -/
def resetPairsOf (st : Store) (objList : List ℕ) : List (ℕ × ℕ) :=
  (objList.zip (pathLengthsOf st objList)).filter
    (fun p => decide (maxPathLength st objList ≠ p.2))

/-- Tiling of one path to length `m` (lines 226-233): append `m - m0` copies of the
final position and of the final orientation quaternion. -/
def tilePath (m m0 : ℕ) (ps : PathState) : PathState :=
  { position := ps.position ++ List.replicate (m - m0) (ps.position.getLastD default),
    orientation :=
      ps.orientation ++ List.replicate (m - m0) (ps.orientation.getLastD Quat.unit) }

/-- One iteration of the tiling loop (lines 224-233): mutate the object `pr.1` whose
recorded original length is `pr.2`. -/
def tileObj (m : ℕ) (st : Store) (pr : ℕ × ℕ) : Store :=
  st.set pr.1 (tilePath m pr.2 (st pr.1))

/-- The tiling phase (lines 223-233): fold the tiling loop over the reset list when
`m > 1`, else leave the store unchanged. -/
def tileStore (st : Store) (objList : List ℕ) : Store :=
  if 1 < maxPathLength st objList then
    (resetPairsOf st objList).foldl (tileObj (maxPathLength st objList)) st
  else st

/-- One iteration of the reset loop (lines 325-327): truncate the object's position
and orientation back to its recorded original length. -/
def restoreObj (st : Store) (pr : ℕ × ℕ) : Store :=
  st.set pr.1
    { position := (st pr.1).position.take pr.2,
      orientation := (st pr.1).orientation.take pr.2 }

/-- The restoration phase (lines 324-327): fold the reset loop over the recorded
reset list. -/
def restoreStore (st : Store) (pairs : List (ℕ × ℕ)) : Store :=
  pairs.foldl restoreObj st

/-- Per-sensor observer points (lines 238-240): for each path step, apply the step's
orientation to the sensor's local pixel offsets and add the step's position, giving a
`(path-step, pixel)` nested array. -/
def sensorPoso (st : Store) (sens : SensorObj) : List (List Vec3) :=
  List.zipWith (fun r p => sens.pixel.map (fun px => r.apply px + p))
    (st sens.id).orientation (st sens.id).position

/-- Concatenation along axis 1 (line 241): per path step, concatenate the per-sensor
pixel rows. -/
def concatAxis1 : List (List (List Vec3)) → List (List Vec3)
  | [] => []
  | [x] => x
  | x :: xs => List.zipWith (fun a b => a ++ b) x (concatAxis1 xs)

/-- The combined observer array in `(path-step, pixel)` form, before the final
`reshape(-1, 3)` of line 241. -/
def posoSteps (st : Store) (sensors : List SensorObj) : List (List Vec3) :=
  concatAxis1 (sensors.map (sensorPoso st))

/-- The seven geometry-type tags, in the order the grouping loop (lines 248-269)
tests them. -/
def bucketTags : List String :=
  ["Cuboid", "Cylinder", "CylinderSegment", "Sphere", "Dipole", "Circular", "Line"]

/-- Embeds the grouping loop (lines 246-269): the loop appends each enumerated
source to the bucket of its type tag, preserving order, so bucket `t` is the
enumeration-filtered sublist of tag `t`.  A source whose tag is in none of the seven
branches is appended to no bucket.  Each bucket entry keeps `order[iii][i]`, the
original flat-list index, next to the source. -/
def sortSources (src_list : List SrcObj) : List (List (ℕ × SrcObj)) :=
  bucketTags.map (fun t => src_list.enum.filter (fun p => decide (p.2.objectType = t)))

/-- Reshape of the flat `(lg * n_pp, 3)` kernel output to `(lg, m, n_pix, 3)`
(line 278), via exact chunking: `chunks n k xs` splits `xs` into `k` consecutive
chunks of length `n`. -/
def chunks {α : Type} (n : ℕ) : ℕ → List α → List (List α)
  | 0, _ => []
  | k + 1, xs => xs.take n :: chunks n k (xs.drop n)

/-- Reshape of a flat kernel output block to `(lg, m, n_pix, 3)` (line 278). -/
def reshapeB (lg m n_pix : ℕ) (flat : List Vec3) : Rank3 :=
  (chunks (m * n_pix) lg flat).map (fun sblock => chunks n_pix m sblock)

/-- Scatter-back of one group's rows into dedicated positions of `B`
(lines 279-280): `B[order[iii][i]] = B_group[i]`. -/
def scatterGroup (B : Rank3) (idxs : List ℕ) (rows : Rank3) : Rank3 :=
  (idxs.zip rows).foldl (fun B p => B.set p.1 p.2) B

/-- Embeds the group evaluation loop (lines 271-280): for each non-empty bucket,
build the level-1 dictionary, compute the group field, reshape it to
`(lg, m, n_pix, 3)` and scatter its rows back into `B` by recorded original index.
Empty buckets are skipped.  An error from `get_src_dict` propagates. -/
def evalBuckets (K : Kernel) (bh : Bool) (st : Store)
    (buckets : List (List (ℕ × SrcObj))) (m n_pix n_pp : ℕ) (poso : List Vec3)
    (B0 : Rank3) : Except Err Rank3 :=
  buckets.foldlM (fun B bucket =>
    if bucket.isEmpty then pure B
    else do
      let group := bucket.map (fun p => p.2)
      let d ← get_src_dict st group n_pix n_pp poso
      let B_group := getBH_level1 K bh d
      pure (scatterGroup B (bucket.map (fun p => p.1))
        (reshapeB group.length m n_pix B_group))) B0

/-- Elementwise sum of two `(m, n_pix, 3)` blocks. -/
def addRank2 (a b : Rank2) : Rank2 :=
  List.zipWith (List.zipWith (fun u v => u + v)) a b

/-- Elementwise sum of a stack of `(m, n_pix, 3)` blocks (`np.sum(..., axis=0)`). -/
def sumRank2 : Rank3 → Rank2
  | [] => []
  | b :: bs => bs.foldl addRank2 b

/-- Embeds the Collection rearrangement loop (lines 283-289): walking the top-level
`sources` entries in order, a bare source keeps its single row of `B`, while a
Collection's contiguous slice of `len(src.sources)` rows is replaced by its
elementwise sum (`B[i] = np.sum(B[i:i+col_len], axis=0)` followed by the
`np.delete` of the remaining slice rows). -/
def collapseCollections : List SrcInput → Rank3 → Rank3
  | [], B => B
  | .src _ :: rest, B =>
    match B with
    | [] => []
    | b :: bs => b :: collapseCollections rest bs
  | .col ss :: rest, B =>
    sumRank2 (B.take ss.length) :: collapseCollections rest (B.drop ss.length)

/-- Map a function over the slice `[start, start + len)` of one pixel row, leaving
the rest unchanged: the effect of overwriting `B[:, :, i*k_pixel:(i+1)*k_pixel]`
with a rotated copy. -/
def mapSlice {α : Type} (f : α → α) (start len : ℕ) (xs : List α) : List α :=
  xs.take start ++ ((xs.drop start).take len).map f ++ xs.drop (start + len)

/-- The inverse rotation one sensor applies at path step `j` (lines 296-310): the
static-orientation special case applies `sens._orientation[0].inv()` at every step,
the general case applies `sens._orientation[j].inv()` per step. -/
def sensorRotAt (st : Store) (sens : SensorObj) (staticRot : Bool) (j : ℕ)
    (v : Vec3) : Vec3 :=
  if staticRot then (((st sens.id).orientation.getD 0 Quat.unit).conj).apply v
  else (((st sens.id).orientation.getD j Quat.unit).conj).apply v

/-- Embeds the per-sensor branch of the sensor rotation loop (lines 294-310):
unrotated sensors are skipped entirely; otherwise the sensor's pixel slice of every
source row and path step is overwritten with its back-rotated copy, using the single
step-0 rotation in the static case and the step's own rotation in the general
case. -/
def applySensorRotation (st : Store) (sens : SensorObj) (unrot staticRot : Bool)
    (i k_pixel : ℕ) (B : Rank3) : Rank3 :=
  if unrot then B
  else
    B.map (fun row => row.enum.map (fun jstep =>
      mapSlice (sensorRotAt st sens staticRot jstep.1) (i * k_pixel) k_pixel jstep.2))

/-- Embeds the sensor rotation loop (lines 291-310): cycle through all sensors,
applying the back-rotation only to rotated sensors. -/
def rotationStage (st : Store) (sensors : List SensorObj)
    (unrotFlags staticFlags : List Bool) (k_pixel : ℕ) (B : Rank3) : Rank3 :=
  sensors.enum.foldl (fun B isens =>
    applySensorRotation st isens.2 (unrotFlags.getD isens.1 false)
      (staticFlags.getD isens.1 false) isens.1 k_pixel B) B

/-- The fully general per-path-step back-rotation (the `else` branch of
lines 305-310) applied unconditionally to one sensor's slice: the reference
behavior against which the "unit rotation" and "static rotation" fast paths are
compared. -/
def applySensorRotationGeneral (st : Store) (sens : SensorObj) (i k_pixel : ℕ)
    (B : Rank3) : Rank3 :=
  B.map (fun row => row.enum.map (fun jstep =>
    mapSlice (fun v => (((st sens.id).orientation.getD jstep.1 Quat.unit).conj).apply v)
      (i * k_pixel) k_pixel jstep.2))

/-- The sensor rotation loop with every sensor routed through the fully general
per-path-step branch, skipping no sensor. -/
def rotationStageGeneral (st : Store) (sensors : List SensorObj) (k_pixel : ℕ)
    (B : Rank3) : Rank3 :=
  sensors.enum.foldl (fun B isens =>
    applySensorRotationGeneral st isens.2 isens.1 k_pixel B) B

/-- The deduplicated participating-object key list, `set(src_list + sensors)`
(line 207): unique entries only, here in first-occurrence order (the Python set
iteration order is arbitrary; order-independence is proved below). -/
def participantIds (sourcesIn : List SrcInput) (sensors : List SensorObj) : List ℕ :=
  ((format_src_inputs sourcesIn).2.map (fun s => s.id) ++
    sensors.map (fun s => s.id)).dedup

/-- Embeds `getBH_level2` (lines 134-329) with the iteration order of the unique
object set passed explicitly as `obj_list`.  `K` is the external kernel, `uninit`
the arbitrary cell content of the uninitialized `np.empty` allocation of line 272,
`bh`/`sumup`/`squeeze` the flags, `st` the caller-owned path store.  Returns the
result (or the raised error) together with the store as the caller observes it
afterwards: mutated-then-restored on the normal path, left tiled when an error is
raised after the tiling phase (the code has no cleanup on raise). -/
def getBH_level2_aux (K : Kernel) (uninit : Vec3) (bh : Bool)
    (sourcesIn : List SrcInput) (sensors : List SensorObj) (sumup squeeze : Bool)
    (st : Store) (obj_list : List ℕ) : Except Err Output × Store :=
  let sources := (format_src_inputs sourcesIn).1
  let src_list := (format_src_inputs sourcesIn).2
  let pix_shapes := sensors.map (fun s => s.pixShape)
  if all_same pix_shapes then
    let pix_shape := pix_shapes.headD []
    let unrotated_sensors := sensors.map (fun s =>
      (st s.id).orientation.all (fun r => decide (r = Quat.unit)))
    let static_sensor_rot := check_static_sensor_orient st sensors
    let l0 := sources.length
    let l := src_list.length
    let k := sensors.length
    let m := maxPathLength st obj_list
    let reset_pairs := resetPairsOf st obj_list
    let st1 := tileStore st obj_list
    let poso_steps := posoSteps st1 sensors
    let poso := poso_steps.flatten
    let n_pp := poso.length
    let n_pix := n_pp / m
    let buckets := sortSources src_list
    let B0 : Rank3 := List.replicate l (List.replicate m (List.replicate n_pix uninit))
    match evalBuckets K bh st1 buckets m n_pix n_pp poso B0 with
    | .error e => (.error e, st1)
    | .ok B =>
      let B1 := if l0 < l then collapseCollections sources B else B
      let k_pixel := pix_shape.dropLast.prod
      let B2 := rotationStage st1 sensors unrotated_sensors static_sensor_rot k_pixel B1
      let shape0 := [l0, m, k] ++ pix_shape
      let flatData := if sumup then (sumRank2 B2).flatten else B2.flatten.flatten
      let shape1 := if sumup then shape0.drop 1 else shape0
      let shape2 := if squeeze then shape1.filter (fun a => decide (a ≠ 1)) else shape1
      let st2 := restoreStore st1 reset_pairs
      (.ok ⟨shape2, flatData⟩, st2)
  else (.error Err.badUserInput, st)

/-- Embeds `getBH_level2` with the unique participating-object set iterated in
first-occurrence order. -/
def getBH_level2 (K : Kernel) (uninit : Vec3) (bh : Bool) (sourcesIn : List SrcInput)
    (sensors : List SensorObj) (sumup squeeze : Bool) (st : Store) :
    Except Err Output × Store :=
  getBH_level2_aux K uninit bh sourcesIn sensors sumup squeeze st
    (participantIds sourcesIn sensors)

/-- The reference variant of `getBH_level2` in which the sensor back-rotation always
takes the fully general per-path-step branch, with neither the "unit rotation" skip
nor the "static rotation" batching. -/
def getBH_level2_generalRot (K : Kernel) (uninit : Vec3) (bh : Bool)
    (sourcesIn : List SrcInput) (sensors : List SensorObj) (sumup squeeze : Bool)
    (st : Store) : Except Err Output × Store :=
  let sources := (format_src_inputs sourcesIn).1
  let src_list := (format_src_inputs sourcesIn).2
  let obj_list := participantIds sourcesIn sensors
  let pix_shapes := sensors.map (fun s => s.pixShape)
  if all_same pix_shapes then
    let pix_shape := pix_shapes.headD []
    let l0 := sources.length
    let l := src_list.length
    let k := sensors.length
    let m := maxPathLength st obj_list
    let reset_pairs := resetPairsOf st obj_list
    let st1 := tileStore st obj_list
    let poso_steps := posoSteps st1 sensors
    let poso := poso_steps.flatten
    let n_pp := poso.length
    let n_pix := n_pp / m
    let buckets := sortSources src_list
    let B0 : Rank3 := List.replicate l (List.replicate m (List.replicate n_pix uninit))
    match evalBuckets K bh st1 buckets m n_pix n_pp poso B0 with
    | .error e => (.error e, st1)
    | .ok B =>
      let B1 := if l0 < l then collapseCollections sources B else B
      let k_pixel := pix_shape.dropLast.prod
      let B2 := rotationStageGeneral st1 sensors k_pixel B1
      let shape0 := [l0, m, k] ++ pix_shape
      let flatData := if sumup then (sumRank2 B2).flatten else B2.flatten.flatten
      let shape1 := if sumup then shape0.drop 1 else shape0
      let shape2 := if squeeze then shape1.filter (fun a => decide (a ≠ 1)) else shape1
      let st2 := restoreStore st1 reset_pairs
      (.ok ⟨shape2, flatData⟩, st2)
  else (.error Err.badUserInput, st)

/-- The packed kernel fields of a single source, branch by branch as `get_src_dict`
packs them (used to state what one row of a homogeneous group receives). -/
def packFields (src : SrcObj) : KernelFields :=
  if src.objectType = "Sphere" then .sphere src.magnetization src.diameter
  else if src.objectType = "Cuboid" then .cuboid src.magnetization src.dimension
  else if src.objectType = "Cylinder" then .cylinder src.magnetization src.dimension
  else if src.objectType = "CylinderSegment" then
    .cylinderSegment src.magnetization src.dimension
  else if src.objectType = "Dipole" then .dipole src.moment
  else if src.objectType = "Circular" then .circular src.current src.diameter
  else .line src.current src.vertices

/-- Truncation of a path back to its original length (the body of one reset-loop
iteration, lines 326-327). -/
def restorePath (m0 : ℕ) (ps : PathState) : PathState :=
  ⟨ps.position.take m0, ps.orientation.take m0⟩

/-- Generic keyed store update: write `g m0 (st id)` at key `id` for the pair
`(id, m0)`.  Both loop bodies of the alignment phase have this form. -/
def updWith (g : ℕ → PathState → PathState) (st : Store) (pr : ℕ × ℕ) : Store :=
  st.set pr.1 (g pr.2 (st pr.1))

/-- Normal termination of a call: the result is an `ok` value, not a raised
error. -/
def isOkResult {ε α : Type} (r : Except ε α) : Bool :=
  match r with
  | .ok _ => true
  | .error _ => false

/-- A concrete test kernel used to evaluate the pipeline at specific inputs: it is
sensitive to the diameter of sphere-kind rows and to the magnetization of
cuboid-kind rows, and returns the observer point otherwise. -/
def testKernel : Kernel := fun _ f _ _ o =>
  match f with
  | .sphere mag dia => mag + (dia • (⟨1, 0, 0⟩ : Vec3))
  | .cuboid mag _ => mag
  | _ => o

/-- A concrete store: object 0 is static (path length 1), any other key holds a
two-step translation path with unit orientations. -/
def stWitA : Store := fun i =>
  if i = 0 then ⟨[⟨0, 0, 0⟩], [Quat.unit]⟩
  else ⟨[⟨0, 0, 0⟩, ⟨1, 0, 0⟩], [Quat.unit, Quat.unit]⟩

/-- A concrete static cuboid source with identity key 0. -/
def srcCuboidA : SrcObj := ⟨0, "Cuboid", ⟨1, 1, 1⟩, [1, 1, 1], 0, default, 0, []⟩

/-- A concrete single-pixel sensor with identity key 1. -/
def sensA : SensorObj := ⟨1, [⟨1, 2, 3⟩], [3]⟩

/-- A concrete two-pixel sensor with identity key 2 whose pixel shape differs from
`sensA`. -/
def sensB : SensorObj := ⟨2, [⟨0, 0, 0⟩, ⟨0, 0, 1⟩], [2, 3]⟩

/-- A concrete store in which every object is static at the origin with unit
orientation (path length 1 everywhere). -/
def stStatic : Store := fun _ => ⟨[⟨0, 0, 0⟩], [Quat.unit]⟩

/-- A concrete static sphere source of diameter 1 and zero magnetization, with
identity key 0. -/
def srcSphereA : SrcObj := ⟨0, "Sphere", ⟨0, 0, 0⟩, [], 1, default, 0, []⟩

/-- A concrete static sphere source of diameter 2 and zero magnetization, with
identity key 3. -/
def srcSphereB : SrcObj := ⟨3, "Sphere", ⟨0, 0, 0⟩, [], 2, default, 0, []⟩

/-- A concrete source whose type tag `"Facet"` lies outside the seven geometry
kinds, with identity key 4. -/
def srcFacet : SrcObj := ⟨4, "Facet", ⟨0, 0, 0⟩, [], 0, default, 0, []⟩

/-!
Theorems.  First the vector/quaternion algebra facts, then a toolkit of list and
store lemmas about the embedded pipeline stages, then the claim theorems.
-/

theorem Vec3.add_def (a b : Vec3) : a + b = ⟨a.x + b.x, a.y + b.y, a.z + b.z⟩ := rfl

theorem Vec3.smul_def (c : ℚ) (a : Vec3) : c • a = ⟨c * a.x, c * a.y, c * a.z⟩ := rfl

/-- Rotating by the unit quaternion is the identity. -/
theorem Quat.apply_unit (v : Vec3) : Quat.unit.apply v = v := by
  simp [Quat.apply, Quat.unit, Quat.normSq, Quat.vec, Vec3.cross, Vec3.smul_def,
    Vec3.add_def]

/-- The conjugate of the unit quaternion is the unit quaternion. -/
theorem Quat.conj_unit : Quat.unit.conj = Quat.unit := by
  simp [Quat.conj, Quat.unit]

/-- Quaternion rotation is additive in the rotated vector. -/
theorem Quat.apply_add (q : Quat) (u v : Vec3) :
    q.apply (u + v) = q.apply u + q.apply v := by
  simp only [Quat.apply, Vec3.cross, Vec3.add_def, Vec3.smul_def]
  ext <;> ring

theorem Store.set_self (st : Store) (i : ℕ) (p : PathState) : (st.set i p) i = p := by
  simp [Store.set]

theorem Store.set_other (st : Store) (i j : ℕ) (p : PathState) (h : j ≠ i) :
    (st.set i p) j = st j := by
  simp [Store.set, h]

theorem tileObj_eq_updWith (m : ℕ) : tileObj m = updWith (tilePath m) := rfl

theorem restoreObj_eq_updWith : restoreObj = updWith restorePath := rfl

/-- A fold of keyed updates leaves keys outside the pair list untouched. -/
theorem foldl_updWith_not_mem (g : ℕ → PathState → PathState) (pairs : List (ℕ × ℕ))
    (st : Store) (id : ℕ) (h : id ∉ pairs.map Prod.fst) :
    (pairs.foldl (updWith g) st) id = st id := by
  induction pairs generalizing st with
  | nil => rfl
  | cons pr rest ih =>
    simp only [List.map_cons, List.mem_cons, not_or] at h
    simp only [List.foldl_cons]
    rw [ih _ h.2, updWith, Store.set_other _ _ _ _ h.1]

/-- A fold of keyed updates over a duplicate-free pair list rewrites each listed key
exactly once, from the initial store's value. -/
theorem foldl_updWith_mem (g : ℕ → PathState → PathState) (pairs : List (ℕ × ℕ))
    (st : Store) (id m0 : ℕ) (hnd : (pairs.map Prod.fst).Nodup)
    (hmem : (id, m0) ∈ pairs) :
    (pairs.foldl (updWith g) st) id = g m0 (st id) := by
  induction pairs generalizing st with
  | nil => cases hmem
  | cons pr rest ih =>
    simp only [List.map_cons, List.nodup_cons] at hnd
    rcases List.mem_cons.mp hmem with heq | hrest
    · subst heq
      simp only [List.foldl_cons]
      rw [foldl_updWith_not_mem _ _ _ _ hnd.1, updWith, Store.set_self]
    · have hne : id ≠ pr.1 := by
        intro hc
        exact hnd.1 (hc ▸ (List.mem_map.mpr ⟨(id, m0), hrest, rfl⟩))
      simp only [List.foldl_cons]
      rw [ih _ hnd.2 hrest, updWith, Store.set_other _ _ _ _ hne]

/-- Zipping a list with its image under `f` and filtering equals filtering first and
pairing afterwards. -/
theorem zip_map_filter (l : List ℕ) (f : ℕ → ℕ) (p : ℕ × ℕ → Bool) :
    (l.zip (l.map f)).filter p =
      (l.filter (fun x => p (x, f x))).map (fun x => (x, f x)) := by
  induction l with
  | nil => rfl
  | cons a t ih =>
    by_cases hp : p (a, f a) = true <;>
      simp [List.zip_cons_cons, List.filter_cons, hp, ih]

/-- The reset list is the filtered participant list paired with its original path
lengths. -/
theorem resetPairsOf_eq (st : Store) (objList : List ℕ) :
    resetPairsOf st objList =
      (objList.filter
          (fun x => decide (maxPathLength st objList ≠ (st x).position.length))).map
        (fun x => (x, (st x).position.length)) := by
  unfold resetPairsOf pathLengthsOf
  exact zip_map_filter objList _ _

/-- The keys of the reset list are the participants whose path length differs from
the maximum. -/
theorem resetPairs_keys (st : Store) (objList : List ℕ) :
    (resetPairsOf st objList).map Prod.fst =
      objList.filter
        (fun x => decide (maxPathLength st objList ≠ (st x).position.length)) := by
  rw [resetPairsOf_eq, List.map_map]
  exact List.map_id' _

/-- Membership in the reset list. -/
theorem mem_resetPairs (st : Store) (objList : List ℕ) (id m0 : ℕ) :
    (id, m0) ∈ resetPairsOf st objList ↔
      id ∈ objList ∧ m0 = (st id).position.length ∧
        maxPathLength st objList ≠ m0 := by
  rw [resetPairsOf_eq]
  constructor
  · intro h
    rcases List.mem_map.mp h with ⟨x, hx, hxe⟩
    rcases List.mem_filter.mp hx with ⟨hmem, hpred⟩
    cases hxe
    exact ⟨hmem, rfl, of_decide_eq_true hpred⟩
  · rintro ⟨hmem, rfl, hne⟩
    exact List.mem_map.mpr ⟨id, List.mem_filter.mpr ⟨hmem, decide_eq_true hne⟩, rfl⟩

/-- Every participant's path length is bounded by the common maximum. -/
theorem le_maxPathLength (st : Store) (objList : List ℕ) (id : ℕ)
    (h : id ∈ objList) : (st id).position.length ≤ maxPathLength st objList := by
  unfold maxPathLength pathLengthsOf
  induction objList with
  | nil => cases h
  | cons a t ih =>
    rcases List.mem_cons.mp h with rfl | ht
    · exact le_max_left _ _
    · exact le_trans (ih ht) (le_max_right _ _)

/-- Pointwise description of the tiling phase over a duplicate-free participant
list. -/
theorem tileStore_get (st : Store) (objList : List ℕ) (hnd : objList.Nodup)
    (id : ℕ) :
    (tileStore st objList) id =
      if 1 < maxPathLength st objList ∧ id ∈ objList ∧
          maxPathLength st objList ≠ (st id).position.length
      then tilePath (maxPathLength st objList) ((st id).position.length) (st id)
      else st id := by
  unfold tileStore
  by_cases hm : 1 < maxPathLength st objList
  · rw [if_pos hm, tileObj_eq_updWith]
    have hkeys : ((resetPairsOf st objList).map Prod.fst).Nodup := by
      rw [resetPairs_keys]
      exact hnd.filter _
    by_cases hin : id ∈ objList ∧ maxPathLength st objList ≠ (st id).position.length
    · rw [if_pos ⟨hm, hin.1, hin.2⟩]
      exact foldl_updWith_mem _ _ _ _ _ hkeys
        ((mem_resetPairs st objList id _).mpr ⟨hin.1, rfl, hin.2⟩)
    · rw [if_neg (by tauto)]
      refine foldl_updWith_not_mem _ _ _ _ ?_
      rw [resetPairs_keys]
      intro hc
      rcases List.mem_filter.mp hc with ⟨h1, h2⟩
      exact hin ⟨h1, of_decide_eq_true h2⟩
  · rw [if_neg hm, if_neg (by tauto)]

/-- Pointwise description of the restoration phase over a duplicate-free participant
list, applied to any intermediate store. -/
theorem restoreStore_get (st1 st : Store) (objList : List ℕ) (hnd : objList.Nodup)
    (id : ℕ) :
    (restoreStore st1 (resetPairsOf st objList)) id =
      if id ∈ objList ∧ maxPathLength st objList ≠ (st id).position.length
      then restorePath ((st id).position.length) (st1 id)
      else st1 id := by
  unfold restoreStore
  rw [restoreObj_eq_updWith]
  have hkeys : ((resetPairsOf st objList).map Prod.fst).Nodup := by
    rw [resetPairs_keys]
    exact hnd.filter _
  by_cases hin : id ∈ objList ∧ maxPathLength st objList ≠ (st id).position.length
  · rw [if_pos hin]
    exact foldl_updWith_mem _ _ _ _ _ hkeys
      ((mem_resetPairs st objList id _).mpr ⟨hin.1, rfl, hin.2⟩)
  · rw [if_neg hin]
    refine foldl_updWith_not_mem _ _ _ _ ?_
    rw [resetPairs_keys]
    intro hc
    rcases List.mem_filter.mp hc with ⟨h1, h2⟩
    exact hin ⟨h1, of_decide_eq_true h2⟩

/-- The dispatch of `get_src_dict` succeeds on every group whose head tag is one of
the seven geometry kinds. -/
theorem get_src_dict_isOk (st : Store) (group : List SrcObj) (n_pix n_pp : ℕ)
    (poso : List Vec3) (h : (group.headD default).objectType ∈ bucketTags) :
    ∃ d, get_src_dict st group n_pix n_pp poso = .ok d := by
  have h' : (group.headD default).objectType = "Cuboid" ∨
      (group.headD default).objectType = "Cylinder" ∨
      (group.headD default).objectType = "CylinderSegment" ∨
      (group.headD default).objectType = "Sphere" ∨
      (group.headD default).objectType = "Dipole" ∨
      (group.headD default).objectType = "Circular" ∨
      (group.headD default).objectType = "Line" := by
    simpa [bucketTags] using h
  unfold get_src_dict
  rcases h' with h1 | h1 | h1 | h1 | h1 | h1 | h1 <;> rw [h1] <;> exact ⟨_, rfl⟩

/-- The bucket evaluation loop succeeds whenever every non-empty bucket is headed by
one of the seven geometry kinds. -/
theorem evalBuckets_isOk (K : Kernel) (bh : Bool) (st : Store) (m n_pix n_pp : ℕ)
    (poso : List Vec3) :
    ∀ (buckets : List (List (ℕ × SrcObj))) (B0 : Rank3),
      (∀ bucket ∈ buckets, bucket ≠ [] →
        ((bucket.map (fun p : ℕ × SrcObj => p.2)).headD default).objectType ∈
          bucketTags) →
      ∃ B, evalBuckets K bh st buckets m n_pix n_pp poso B0 = .ok B := by
  intro buckets
  induction buckets with
  | nil => exact fun B0 _ => ⟨B0, rfl⟩
  | cons bucket rest ih =>
    intro B0 h
    unfold evalBuckets at ih ⊢
    rw [List.foldlM_cons]
    by_cases hb : bucket.isEmpty
    · rcases ih B0 (fun b hbmem => h b (List.mem_cons_of_mem _ hbmem)) with ⟨B, hB⟩
      exact ⟨B, by rw [if_pos hb]; exact hB⟩
    · rcases get_src_dict_isOk st (bucket.map (fun p : ℕ × SrcObj => p.2)) n_pix n_pp
        poso (h bucket (List.mem_cons_self _ _)
          (by simpa [List.isEmpty_iff] using hb)) with ⟨d, hd⟩
      rcases ih (scatterGroup B0 (bucket.map (fun p : ℕ × SrcObj => p.1))
          (reshapeB (bucket.map (fun p : ℕ × SrcObj => p.2)).length m n_pix
            (getBH_level1 K bh d)))
          (fun b hbmem => h b (List.mem_cons_of_mem _ hbmem)) with ⟨B, hB⟩
      refine ⟨B, ?_⟩
      rw [if_neg hb]
      simp only [hd]
      exact hB

/-- Every non-empty bucket produced by the grouping loop is headed by its own
geometry-kind tag. -/
theorem sortSources_head_tag (src_list : List SrcObj) :
    ∀ bucket ∈ sortSources src_list, bucket ≠ [] →
      ((bucket.map (fun p : ℕ × SrcObj => p.2)).headD default).objectType ∈
        bucketTags := by
  intro bucket hmem hne
  rcases List.mem_map.mp hmem with ⟨t, ht, hbt⟩
  rcases bucket with _ | ⟨b, rest⟩
  · exact absurd rfl hne
  · have hbmem : b ∈ src_list.enum.filter (fun p => decide (p.2.objectType = t)) := by
      rw [hbt]
      exact List.mem_cons_self _ _
    have := (List.mem_filter.mp hbmem).2
    simp only [List.map_cons, List.headD_cons]
    rw [of_decide_eq_true this]
    exact ht

/-- The bucket evaluation loop of `getBH_level2` never raises: every bucket it
builds is homogeneous in one of the seven kinds, so the internal-error branch of
`get_src_dict` is unreachable from the pipeline. -/
theorem evalBuckets_sortSources_isOk (K : Kernel) (bh : Bool) (st : Store)
    (src_list : List SrcObj) (m n_pix n_pp : ℕ) (poso : List Vec3) (B0 : Rank3) :
    ∃ B, evalBuckets K bh st (sortSources src_list) m n_pix n_pp poso B0 = .ok B :=
  evalBuckets_isOk K bh st m n_pix n_pp poso (sortSources src_list) B0
    (sortSources_head_tag src_list)

/-- Truncating a tiled path back to its original position length recovers the
original path state, provided position and orientation had equal lengths. -/
theorem restorePath_tilePath (m : ℕ) (ps : PathState)
    (horient : ps.orientation.length = ps.position.length) :
    restorePath ps.position.length (tilePath m ps.position.length ps) = ps := by
  cases ps with
  | mk pos orient =>
    simp only at horient
    unfold restorePath tilePath
    simp only [PathState.mk.injEq]
    refine ⟨List.take_left pos _, ?_⟩
    rw [← horient]
    exact List.take_left orient _

/-- Truncating a path to its own length is the identity, provided position and
orientation had equal lengths. -/
theorem restorePath_self (ps : PathState)
    (horient : ps.orientation.length = ps.position.length) :
    restorePath ps.position.length ps = ps := by
  cases ps with
  | mk pos orient =>
    simp only at horient
    unfold restorePath
    simp [← horient]

/-- On the pixel-shape-check success path, the store a call returns is the tiled
store with the recorded reset list restored, whatever the bucket evaluation
returned. -/
theorem getBH_aux_store (K : Kernel) (uninit : Vec3) (bh : Bool)
    (sourcesIn : List SrcInput) (sensors : List SensorObj) (sumup squeeze : Bool)
    (st : Store) (objList : List ℕ)
    (hsame : all_same (sensors.map (fun s => s.pixShape)) = true) :
    (getBH_level2_aux K uninit bh sourcesIn sensors sumup squeeze st objList).2 =
      restoreStore (tileStore st objList) (resetPairsOf st objList) := by
  simp only [getBH_level2_aux]
  rw [if_pos hsame]
  rcases evalBuckets_sortSources_isOk K bh (tileStore st objList)
      (format_src_inputs sourcesIn).2 (maxPathLength st objList)
      ((posoSteps (tileStore st objList) sensors).flatten.length /
        maxPathLength st objList)
      (posoSteps (tileStore st objList) sensors).flatten.length
      (posoSteps (tileStore st objList) sensors).flatten
      (List.replicate (format_src_inputs sourcesIn).2.length
        (List.replicate (maxPathLength st objList)
          (List.replicate
            ((posoSteps (tileStore st objList) sensors).flatten.length /
              maxPathLength st objList) uninit))) with ⟨B, hB⟩
  rw [hB]

/-- A failed pixel-shape check rejects the call before anything else happens: the
raised error is `MagpylibBadUserInput` and the store is returned untouched. -/
theorem getBH_aux_mismatch (K : Kernel) (uninit : Vec3) (bh : Bool)
    (sourcesIn : List SrcInput) (sensors : List SensorObj) (sumup squeeze : Bool)
    (st : Store) (objList : List ℕ)
    (hdiff : all_same (sensors.map (fun s => s.pixShape)) = false) :
    getBH_level2_aux K uninit bh sourcesIn sensors sumup squeeze st objList =
      (.error Err.badUserInput, st) := by
  simp only [getBH_level2_aux]
  rw [if_neg (by simp [hdiff])]

/-- C1: every call of `evaluate_field` (`getBH_level2`) that returns normally leaves
every participating source and sensor with its position path and orientation path at
their original pre-call lengths: paths shorter than the common maximum are padded
during the call and truncated back before the return, and entities whose length
already equalled the maximum are returned unchanged (a no-op restoration). -/
theorem evaluate_field_restores_path_lengths (K : Kernel) (uninit : Vec3) (bh : Bool)
    (sourcesIn : List SrcInput) (sensors : List SensorObj) (sumup squeeze : Bool)
    (st : Store)
    (hok : isOkResult
      (getBH_level2 K uninit bh sourcesIn sensors sumup squeeze st).1 = true)
    (id : ℕ) (hid : id ∈ participantIds sourcesIn sensors)
    (horient : ((st id).orientation).length = ((st id).position).length) :
    (((getBH_level2 K uninit bh sourcesIn sensors sumup squeeze st).2 id).position).length
        = ((st id).position).length ∧
    (((getBH_level2 K uninit bh sourcesIn sensors sumup squeeze st).2 id).orientation).length
        = ((st id).orientation).length := by
  have hsame : all_same (sensors.map (fun s => s.pixShape)) = true := by
    rcases Bool.eq_false_or_eq_true (all_same (sensors.map (fun s => s.pixShape)))
      with ht | hf
    · exact ht
    · simp only [getBH_level2] at hok
      rw [getBH_aux_mismatch K uninit bh sourcesIn sensors sumup squeeze st _ hf]
        at hok
      simp [isOkResult] at hok
  have hst2 := getBH_aux_store K uninit bh sourcesIn sensors sumup squeeze st
    (participantIds sourcesIn sensors) hsame
  simp only [getBH_level2] at hst2 ⊢
  rw [hst2]
  have hnd : (participantIds sourcesIn sensors).Nodup := List.nodup_dedup _
  rw [restoreStore_get (tileStore st (participantIds sourcesIn sensors)) st
    (participantIds sourcesIn sensors) hnd id,
    tileStore_get st (participantIds sourcesIn sensors) hnd id]
  by_cases hne : maxPathLength st (participantIds sourcesIn sensors) ≠
      ((st id).position).length
  · rw [if_pos ⟨hid, hne⟩]
    by_cases hm : 1 < maxPathLength st (participantIds sourcesIn sensors)
    · rw [if_pos ⟨hm, hid, hne⟩,
        restorePath_tilePath (maxPathLength st (participantIds sourcesIn sensors))
          (st id) horient]
      exact ⟨rfl, rfl⟩
    · rw [if_neg (by tauto), restorePath_self (st id) horient]
      exact ⟨rfl, rfl⟩
  · rw [if_neg (by tauto), if_neg (by tauto)]
    exact ⟨rfl, rfl⟩

theorem evaluate_field_restores_path_lengths_witness :
    (((getBH_level2 testKernel 0 true [.src srcCuboidA] [sensA] false false
        stWitA).2 0).position).length = ((stWitA 0).position).length ∧
    (((getBH_level2 testKernel 0 true [.src srcCuboidA] [sensA] false false
        stWitA).2 0).orientation).length = ((stWitA 0).orientation).length :=
  evaluate_field_restores_path_lengths testKernel 0 true [.src srcCuboidA] [sensA]
    false false stWitA (by decide) 0 (by decide) (by decide)

/-- C6: when the sensors' pixel-array shapes are not all identical, the call fails
with the user-input error, raised before the tiling phase: the returned store is the
unmutated input store, and no result is produced. -/
theorem mismatched_pixel_shapes_rejected (K : Kernel) (uninit : Vec3) (bh : Bool)
    (sourcesIn : List SrcInput) (sensors : List SensorObj) (sumup squeeze : Bool)
    (st : Store)
    (hdiff : all_same (sensors.map (fun s => s.pixShape)) = false) :
    getBH_level2 K uninit bh sourcesIn sensors sumup squeeze st =
      (.error Err.badUserInput, st) := by
  simp only [getBH_level2]
  exact getBH_aux_mismatch K uninit bh sourcesIn sensors sumup squeeze st _ hdiff

theorem mismatched_pixel_shapes_rejected_witness :
    getBH_level2 testKernel 0 true [.src srcCuboidA] [sensA, sensB] false false
      stWitA = (.error Err.badUserInput, stWitA) :=
  mismatched_pixel_shapes_rejected testKernel 0 true [.src srcCuboidA]
    [sensA, sensB] false false stWitA (by decide)

/-- C10: an object occurring several times among the participating entities (for
example the same source passed directly and inside a Collection) is tiled at most
once and restored at most once, because the alignment phase operates on the
deduplicated participant set: its key occurs at most once in the reset list, its
tiled path length is exactly the common maximum (no double padding), and the
restored state is exactly the original (no double truncation). -/
theorem alignment_dedup_tiles_once (sourcesIn : List SrcInput)
    (sensors : List SensorObj) (st : Store) (id : ℕ)
    (hdup : 1 < (((format_src_inputs sourcesIn).2.map (fun s => s.id) ++
      sensors.map (fun s => s.id)).count id))
    (hlen : 1 ≤ ((st id).position).length)
    (horient : ((st id).orientation).length = ((st id).position).length) :
    ((resetPairsOf st (participantIds sourcesIn sensors)).map Prod.fst).count id ≤ 1
    ∧ (((tileStore st (participantIds sourcesIn sensors)) id).position).length =
        maxPathLength st (participantIds sourcesIn sensors)
    ∧ (((tileStore st (participantIds sourcesIn sensors)) id).orientation).length =
        maxPathLength st (participantIds sourcesIn sensors)
    ∧ restoreStore (tileStore st (participantIds sourcesIn sensors))
        (resetPairsOf st (participantIds sourcesIn sensors)) id = st id := by
  have hnd : (participantIds sourcesIn sensors).Nodup := List.nodup_dedup _
  have hid : id ∈ participantIds sourcesIn sensors := by
    apply List.mem_dedup.mpr
    exact List.count_pos_iff.mp (lt_trans Nat.zero_lt_one hdup)
  have hle := le_maxPathLength st (participantIds sourcesIn sensors) id hid
  refine ⟨?_, ?_, ?_, ?_⟩
  · rw [resetPairs_keys]
    exact le_trans ((List.filter_sublist _).count_le _)
      (List.nodup_iff_count_le_one.mp hnd id)
  · rw [tileStore_get st _ hnd id]
    by_cases hc : 1 < maxPathLength st (participantIds sourcesIn sensors) ∧
        id ∈ participantIds sourcesIn sensors ∧
        maxPathLength st (participantIds sourcesIn sensors) ≠
          ((st id).position).length
    · rw [if_pos hc]
      simp only [tilePath, List.length_append, List.length_replicate]
      omega
    · rw [if_neg hc]
      have hd : ¬(1 < maxPathLength st (participantIds sourcesIn sensors)) ∨
          maxPathLength st (participantIds sourcesIn sensors) =
            ((st id).position).length := by tauto
      rcases hd with hd | hd <;> omega
  · rw [tileStore_get st _ hnd id]
    by_cases hc : 1 < maxPathLength st (participantIds sourcesIn sensors) ∧
        id ∈ participantIds sourcesIn sensors ∧
        maxPathLength st (participantIds sourcesIn sensors) ≠
          ((st id).position).length
    · rw [if_pos hc]
      simp only [tilePath, List.length_append, List.length_replicate]
      omega
    · rw [if_neg hc]
      have hd : ¬(1 < maxPathLength st (participantIds sourcesIn sensors)) ∨
          maxPathLength st (participantIds sourcesIn sensors) =
            ((st id).position).length := by tauto
      rcases hd with hd | hd <;> omega
  · rw [restoreStore_get (tileStore st (participantIds sourcesIn sensors)) st
      (participantIds sourcesIn sensors) hnd id,
      tileStore_get st (participantIds sourcesIn sensors) hnd id]
    by_cases hne : maxPathLength st (participantIds sourcesIn sensors) ≠
        ((st id).position).length
    · rw [if_pos ⟨hid, hne⟩]
      by_cases hm : 1 < maxPathLength st (participantIds sourcesIn sensors)
      · rw [if_pos ⟨hm, hid, hne⟩]
        exact restorePath_tilePath _ (st id) horient
      · rw [if_neg (by tauto)]
        exact restorePath_self (st id) horient
    · rw [if_neg (by tauto), if_neg (by tauto)]

theorem alignment_dedup_tiles_once_witness :
    ((resetPairsOf stWitA
        (participantIds [.src srcCuboidA, .src srcCuboidA] [sensA])).map
      Prod.fst).count 0 ≤ 1
    ∧ (((tileStore stWitA
          (participantIds [.src srcCuboidA, .src srcCuboidA] [sensA])) 0).position).length =
        maxPathLength stWitA (participantIds [.src srcCuboidA, .src srcCuboidA] [sensA])
    ∧ (((tileStore stWitA
          (participantIds [.src srcCuboidA, .src srcCuboidA] [sensA])) 0).orientation).length =
        maxPathLength stWitA (participantIds [.src srcCuboidA, .src srcCuboidA] [sensA])
    ∧ restoreStore (tileStore stWitA
          (participantIds [.src srcCuboidA, .src srcCuboidA] [sensA]))
        (resetPairsOf stWitA
          (participantIds [.src srcCuboidA, .src srcCuboidA] [sensA])) 0 = stWitA 0 :=
  alignment_dedup_tiles_once [.src srcCuboidA, .src srcCuboidA] [sensA] stWitA 0
    (by decide) (by decide) (by decide)

/-- The common maximum path length is invariant under permutation of the participant
list. -/
theorem foldr_max_perm : ∀ {l₁ l₂ : List ℕ}, l₁.Perm l₂ →
    l₁.foldr max 0 = l₂.foldr max 0 := by
  intro l₁ l₂ h
  induction h with
  | nil => rfl
  | cons x _ ih => simp only [List.foldr_cons, ih]
  | swap x y l =>
    simp only [List.foldr_cons]
    rw [← max_assoc, ← max_assoc, max_comm x y]
  | trans _ _ ih₁ ih₂ => exact ih₁.trans ih₂

/-- The common maximum path length is invariant under permutation of the participant
list. -/
theorem maxPathLength_perm (st : Store) (l₁ l₂ : List ℕ) (h : l₁.Perm l₂) :
    maxPathLength st l₁ = maxPathLength st l₂ := by
  unfold maxPathLength pathLengthsOf
  exact foldr_max_perm (h.map (fun i => ((st i).position).length))

/-- C9: the outcome of a call does not depend on the iteration order of the
deduplicated participating-object set: running `getBH_level2` with any permutation
of the unique object list yields the identical result and the identical final
store.  Determinism proper is definitional here, since the embedded pipeline is a
pure function of its inputs. -/
theorem evaluate_field_objList_order_independent (K : Kernel) (uninit : Vec3)
    (bh : Bool) (sourcesIn : List SrcInput) (sensors : List SensorObj)
    (sumup squeeze : Bool) (st : Store) (objList' : List ℕ)
    (hperm : objList'.Perm (participantIds sourcesIn sensors)) :
    getBH_level2_aux K uninit bh sourcesIn sensors sumup squeeze st objList' =
      getBH_level2 K uninit bh sourcesIn sensors sumup squeeze st := by
  have hnd : (participantIds sourcesIn sensors).Nodup := List.nodup_dedup _
  have hnd' : objList'.Nodup := hperm.nodup_iff.mpr hnd
  have hm : maxPathLength st objList' =
      maxPathLength st (participantIds sourcesIn sensors) :=
    maxPathLength_perm st _ _ hperm
  have hTile : tileStore st objList' =
      tileStore st (participantIds sourcesIn sensors) := by
    funext id
    rw [tileStore_get st objList' hnd' id,
      tileStore_get st (participantIds sourcesIn sensors) hnd id, hm]
    exact if_congr (and_congr Iff.rfl (and_congr hperm.mem_iff Iff.rfl)) rfl rfl
  have hRestore : restoreStore (tileStore st (participantIds sourcesIn sensors))
      (resetPairsOf st objList') =
      restoreStore (tileStore st (participantIds sourcesIn sensors))
        (resetPairsOf st (participantIds sourcesIn sensors)) := by
    funext id
    rw [restoreStore_get _ st objList' hnd' id,
      restoreStore_get _ st (participantIds sourcesIn sensors) hnd id, hm]
    exact if_congr (and_congr hperm.mem_iff Iff.rfl) rfl rfl
  simp only [getBH_level2, getBH_level2_aux]
  rw [hm, hTile, hRestore]

theorem evaluate_field_objList_order_independent_witness :
    getBH_level2_aux testKernel 0 true [.src srcCuboidA] [sensA] false false stWitA
      [1, 0] =
    getBH_level2 testKernel 0 true [.src srcCuboidA] [sensA] false false stWitA :=
  evaluate_field_objList_order_independent testKernel 0 true [.src srcCuboidA]
    [sensA] false false stWitA [1, 0] (by decide)

/-- Length of a flat-map whose pieces have uniform length. -/
theorem length_flatMap_uniform {α β : Type} (l : List α) (f : α → List β) (c : ℕ)
    (h : ∀ a ∈ l, (f a).length = c) : (l.flatMap f).length = l.length * c := by
  induction l with
  | nil => simp
  | cons a t ih =>
    simp only [List.flatMap_cons, List.length_append, List.length_cons,
      h a (List.mem_cons_self a t), ih (fun x hx => h x (List.mem_cons_of_mem a hx))]
    ring

/-- Length of the flattening of a uniform-width nested list. -/
theorem length_flatten_uniform {α : Type} (L : List (List α)) (c : ℕ)
    (h : ∀ row ∈ L, row.length = c) : L.flatten.length = L.length * c := by
  induction L with
  | nil => simp
  | cons row t ih =>
    simp only [List.flatten_cons, List.length_append, List.length_cons,
      h row (List.mem_cons_self row t),
      ih (fun x hx => h x (List.mem_cons_of_mem row hx))]
    ring

/-- Overwriting a slice preserves the row length. -/
theorem mapSlice_length {α : Type} (f : α → α) (s li : ℕ) (xs : List α) :
    (mapSlice f s li xs).length = xs.length := by
  unfold mapSlice
  simp only [List.length_append, List.length_map, List.length_take, List.length_drop]
  omega

/-- Chunking produces the requested number of chunks. -/
theorem chunks_length {α : Type} (n : ℕ) :
    ∀ (k : ℕ) (xs : List α), (chunks n k xs).length = k := by
  intro k
  induction k with
  | zero => intro xs; rfl
  | succ k ih => intro xs; simp [chunks, ih]

/-- Chunking a list of exactly `k * n` elements produces chunks of exactly `n`
elements. -/
theorem chunks_row_length {α : Type} (n : ℕ) :
    ∀ (k : ℕ) (xs : List α), xs.length = k * n →
      ∀ c ∈ chunks n k xs, c.length = n := by
  intro k
  induction k with
  | zero => intro xs _ c hc; cases hc
  | succ k ih =>
    intro xs hlen c hc
    rw [Nat.succ_mul] at hlen
    rcases List.mem_cons.mp hc with rfl | hrest
    · rw [List.length_take]
      omega
    · exact ih (xs.drop n) (by rw [List.length_drop]; omega) c hrest

/-- Chunking the flattening of a uniform nested list recovers the nested list. -/
theorem chunks_flatten {α : Type} (n : ℕ) :
    ∀ (L : List (List α)), (∀ c ∈ L, c.length = n) →
      chunks n L.length L.flatten = L := by
  intro L
  induction L with
  | nil => intro _; rfl
  | cons row t ih =>
    intro h
    have hrow : row.length = n := h row (List.mem_cons_self row t)
    simp only [List.length_cons, List.flatten_cons, chunks]
    have h1 : List.take n (row ++ t.flatten) = row := by
      rw [List.take_append_of_le_length hrow.ge, ← hrow, List.take_length]
    have h2 : List.drop n (row ++ t.flatten) = t.flatten := by
      rw [List.drop_append_of_le_length hrow.ge, ← hrow, List.drop_length,
        List.nil_append]
    rw [h1, h2, ih (fun c hc => h c (List.mem_cons_of_mem row hc))]

/-- Multiplicative content is preserved by dropping the length-one axes. -/
theorem prod_filter_ne_one (l : List ℕ) :
    (l.filter (fun a => decide (a ≠ 1))).prod = l.prod := by
  simp only [ne_eq, decide_not]
  induction l with
  | nil => rfl
  | cons a t ih =>
    by_cases ha : a = 1
    · subst ha
      simp [List.filter_cons, ih]
    · simp [List.filter_cons, ha, ih]

/-- A fold preserves any invariant its step function preserves. -/
theorem foldl_invariant {α β : Type} (P : α → Prop) (f : α → β → α) (l : List β)
    (a : α) (ha : P a) (h : ∀ acc b, b ∈ l → P acc → P (f acc b)) :
    P (l.foldl f a) := by
  induction l generalizing a with
  | nil => exact ha
  | cons b t ih =>
    exact ih (f a b) (h a b (List.mem_cons_self b t) ha)
      (fun acc x hx => h acc x (List.mem_cons_of_mem b hx))

/-- After the tiling phase every participant with a well-formed non-empty path has
position and orientation paths of exactly the common maximum length. -/
theorem tileStore_lengths (st : Store) (objList : List ℕ) (hnd : objList.Nodup)
    (id : ℕ) (hid : id ∈ objList) (hlen : 1 ≤ ((st id).position).length)
    (horient : ((st id).orientation).length = ((st id).position).length) :
    (((tileStore st objList) id).position).length = maxPathLength st objList ∧
    (((tileStore st objList) id).orientation).length = maxPathLength st objList := by
  have hle := le_maxPathLength st objList id hid
  rw [tileStore_get st objList hnd id]
  by_cases hc : 1 < maxPathLength st objList ∧ id ∈ objList ∧
      maxPathLength st objList ≠ ((st id).position).length
  · rw [if_pos hc]
    simp only [tilePath, List.length_append, List.length_replicate]
    omega
  · rw [if_neg hc]
    have hd : ¬(1 < maxPathLength st objList) ∨
        maxPathLength st objList = ((st id).position).length := by tauto
    rcases hd with hd | hd <;> omega

/-- Every element of a zip-with image is the image of members of the two lists. -/
theorem mem_zipWith_strong {α β γ : Type} (f : α → β → γ) :
    ∀ (l1 : List α) (l2 : List β) (x : γ), x ∈ List.zipWith f l1 l2 →
      ∃ a, a ∈ l1 ∧ ∃ b, b ∈ l2 ∧ x = f a b := by
  intro l1
  induction l1 with
  | nil => intro l2 x hx; simp at hx
  | cons a t ih =>
    intro l2 x hx
    cases l2 with
    | nil => simp at hx
    | cons b t2 =>
      rcases List.mem_cons.mp (by simpa using hx) with rfl | h
      · exact ⟨a, List.mem_cons_self a t, b, List.mem_cons_self b t2, rfl⟩
      · rcases ih t2 x h with ⟨a', ha', b', hb', hx'⟩
        exact ⟨a', List.mem_cons_of_mem a ha', b', List.mem_cons_of_mem b hb', hx'⟩

theorem tile_mag_length (group : List SrcObj) (n_pp : ℕ) :
    (tile_mag group n_pp).length = group.length * n_pp :=
  length_flatMap_uniform _ _ _ (fun _ _ => List.length_replicate _ _)

theorem tile_dim_cuboid_length (group : List SrcObj) (n_pp : ℕ) :
    (tile_dim_cuboid group n_pp).length = group.length * n_pp :=
  length_flatMap_uniform _ _ _ (fun _ _ => List.length_replicate _ _)

theorem tile_dim_cylinder_length (group : List SrcObj) (n_pp : ℕ) :
    (tile_dim_cylinder group n_pp).length = group.length * n_pp :=
  length_flatMap_uniform _ _ _ (fun _ _ => List.length_replicate _ _)

theorem tile_dim_cylinder_section_length (group : List SrcObj) (n_pp : ℕ) :
    (tile_dim_cylinder_section group n_pp).length = group.length * n_pp :=
  length_flatMap_uniform _ _ _ (fun _ _ => List.length_replicate _ _)

theorem tile_moment_length (group : List SrcObj) (n_pp : ℕ) :
    (tile_moment group n_pp).length = group.length * n_pp :=
  length_flatMap_uniform _ _ _ (fun _ _ => List.length_replicate _ _)

theorem tile_dia_length (group : List SrcObj) (n_pp : ℕ) :
    (tile_dia group n_pp).length = n_pp * group.length := by
  unfold tile_dia
  rw [length_flatten_uniform _ group.length
    (fun row hr => by rw [List.eq_of_mem_replicate hr, List.length_map]),
    List.length_replicate]

theorem tile_current_length (group : List SrcObj) (n_pp : ℕ) :
    (tile_current group n_pp).length = n_pp * group.length := by
  unfold tile_current
  rw [length_flatten_uniform _ group.length
    (fun row hr => by rw [List.eq_of_mem_replicate hr, List.length_map]),
    List.length_replicate]

/-- The level-1 call returns one field row per packed row. -/
theorem getBH_level1_length (K : Kernel) (bh : Bool) (d : SrcDict) :
    (getBH_level1 K bh d).length =
      min d.fields.length (min d.position.length
        (min d.orientation.length d.observer.length)) := by
  unfold getBH_level1
  rw [List.length_zipWith, List.length_zip, List.length_zip]

/-- The dictionary a successful dispatch returns is a dense bundle of exactly
`lg * n_pp` rows in every component, given tiled paths of length `m` and
`n_pp = m * n_pix` observer rows. -/
theorem get_src_dict_lengths (st1 : Store) (group : List SrcObj) (m n_pix n_pp : ℕ)
    (poso : List Vec3) (d : SrcDict)
    (hd : get_src_dict st1 group n_pix n_pp poso = .ok d)
    (hpaths : ∀ src ∈ group, ((st1 src.id).position).length = m ∧
      ((st1 src.id).orientation).length = m)
    (hpp : n_pp = m * n_pix) (hposo : poso.length = n_pp) :
    d.fields.length = group.length * n_pp ∧
    d.position.length = group.length * n_pp ∧
    d.orientation.length = group.length * n_pp ∧
    d.observer.length = group.length * n_pp := by
  have hposv : (group.flatMap (fun src =>
      (st1 src.id).position.flatMap (fun p => List.replicate n_pix p))).length =
      group.length * n_pp := by
    rw [length_flatMap_uniform _ _ (m * n_pix) (fun src hsrc => by
      rw [length_flatMap_uniform _ _ n_pix (fun _ _ => List.length_replicate _ _),
        (hpaths src hsrc).1]), hpp]
  have hrotv : (group.flatMap (fun src =>
      (st1 src.id).orientation.flatMap (fun r => List.replicate n_pix r))).length =
      group.length * n_pp := by
    rw [length_flatMap_uniform _ _ (m * n_pix) (fun src hsrc => by
      rw [length_flatMap_uniform _ _ n_pix (fun _ _ => List.length_replicate _ _),
        (hpaths src hsrc).2]), hpp]
  have hobs : (group.flatMap (fun _ => poso)).length = group.length * n_pp :=
    length_flatMap_uniform _ _ n_pp (fun _ _ => hposo)
  simp only [get_src_dict] at hd
  repeat' split at hd
  all_goals
    first
    | (cases hd
       refine ⟨?_, hposv, hrotv, hobs⟩
       first
       | (rw [length_flatMap_uniform _ _ n_pp
             (fun _ _ => List.length_replicate _ _)])
       | (simp only [List.length_zipWith, List.length_map, tile_mag_length,
           tile_dia_length, tile_dim_cuboid_length, tile_dim_cylinder_length,
           tile_dim_cylinder_section_length, tile_moment_length,
           tile_current_length, Nat.mul_comm n_pp group.length, min_self]))
    | simp at hd

/-- The per-sensor observer block has one row per path step and one entry per
pixel. -/
theorem sensorPoso_dims (st1 : Store) (sens : SensorObj) (M : ℕ)
    (hpos : ((st1 sens.id).position).length = M)
    (hor : ((st1 sens.id).orientation).length = M) :
    (sensorPoso st1 sens).length = M ∧
    ∀ row ∈ sensorPoso st1 sens, row.length = sens.pixel.length := by
  constructor
  · unfold sensorPoso
    rw [List.length_zipWith, hpos, hor, min_self]
  · intro row hrow
    rcases mem_zipWith_strong _ _ _ row hrow with ⟨r, _, p, _, rfl⟩
    exact List.length_map _ _

/-- The assembled observer block has one row per path step, each row holding the
pixels of all sensors in order. -/
theorem posoSteps_dims (st1 : Store) (M : ℕ) :
    ∀ (sensors : List SensorObj), sensors ≠ [] →
      (∀ s ∈ sensors, ((st1 s.id).position).length = M ∧
        ((st1 s.id).orientation).length = M) →
      (posoSteps st1 sensors).length = M ∧
      ∀ row ∈ posoSteps st1 sensors,
        row.length = (sensors.map (fun s => s.pixel.length)).sum := by
  intro sensors
  induction sensors with
  | nil => intro h; exact absurd rfl h
  | cons s rest ih =>
    intro _ hs
    have hsdims := sensorPoso_dims st1 s M (hs s (List.mem_cons_self s rest)).1
      (hs s (List.mem_cons_self s rest)).2
    cases rest with
    | nil =>
      refine ⟨hsdims.1, fun row hrow => ?_⟩
      simp only [List.map_cons, List.map_nil, List.sum_cons, List.sum_nil,
        Nat.add_zero]
      exact hsdims.2 row hrow
    | cons s2 rest2 =>
      have ihr := ih (by simp)
        (fun x hx => hs x (List.mem_cons_of_mem s hx))
      show ((List.zipWith (fun a b => a ++ b) (sensorPoso st1 s)
        (concatAxis1 ((s2 :: rest2).map (sensorPoso st1)))).length = M ∧ _)
      constructor
      · rw [List.length_zipWith, hsdims.1]
        rw [show (concatAxis1 ((s2 :: rest2).map (sensorPoso st1))).length = M from
          ihr.1, min_self]
      · intro row hrow
        rcases mem_zipWith_strong _ _ _ row hrow with ⟨a, ha, b, hb, rfl⟩
        rw [List.length_append, hsdims.2 a ha, ihr.2 b hb]
        simp [List.sum_cons]

/-- The reshape of a dense `lg * m * n_pix` row block is an `lg × m × n_pix`
nested block. -/
theorem reshapeB_dims (lg m n_pix : ℕ) (flat : List Vec3)
    (hflat : flat.length = lg * (m * n_pix)) :
    (reshapeB lg m n_pix flat).length = lg ∧
    ∀ blk ∈ reshapeB lg m n_pix flat, blk.length = m ∧
      ∀ row ∈ blk, row.length = n_pix := by
  unfold reshapeB
  refine ⟨by rw [List.length_map, chunks_length], fun blk hblk => ?_⟩
  rcases List.mem_map.mp hblk with ⟨sblock, hsb, rfl⟩
  have hsbl : sblock.length = m * n_pix :=
    chunks_row_length (m * n_pix) lg flat hflat sblock hsb
  exact ⟨chunks_length _ _ _, chunks_row_length n_pix m sblock hsbl⟩

/-- Scattering rows into a block preserves its outer length and its row
dimensions, provided the scattered rows have the same dimensions. -/
theorem scatterGroup_dims (L m n_pix : ℕ) (B : Rank3) (idxs : List ℕ) (rows : Rank3)
    (hB : B.length = L ∧ ∀ blk ∈ B, blk.length = m ∧ ∀ row ∈ blk, row.length = n_pix)
    (hrows : ∀ blk ∈ rows, blk.length = m ∧ ∀ row ∈ blk, row.length = n_pix) :
    (scatterGroup B idxs rows).length = L ∧
    ∀ blk ∈ scatterGroup B idxs rows, blk.length = m ∧
      ∀ row ∈ blk, row.length = n_pix := by
  unfold scatterGroup
  refine foldl_invariant (fun B' : Rank3 => B'.length = L ∧
    ∀ blk ∈ B', blk.length = m ∧ ∀ row ∈ blk, row.length = n_pix) _ _ _ hB ?_
  intro acc p hp hacc
  refine ⟨by rw [List.length_set]; exact hacc.1, fun blk hblk => ?_⟩
  rcases List.mem_or_eq_of_mem_set hblk with hmem | rfl
  · exact hacc.2 blk hmem
  · exact hrows p.2 (List.of_mem_zip hp).2

/-- The bucket evaluation loop preserves the dense dimensions of the allocated
block: given tiled paths of length `m` for every bucket member and a dense
observer array, the assembled `B` is `L × m × n_pix`. -/
theorem evalBuckets_dims (K : Kernel) (bh : Bool) (st1 : Store) (m n_pix n_pp L : ℕ)
    (poso : List Vec3) (hpp : n_pp = m * n_pix) (hposo : poso.length = n_pp) :
    ∀ (buckets : List (List (ℕ × SrcObj))) (B0 B : Rank3),
      (∀ bucket ∈ buckets, ∀ p ∈ bucket,
        ((st1 (Prod.snd (α := ℕ) p).id).position).length = m ∧
        ((st1 (Prod.snd (α := ℕ) p).id).orientation).length = m) →
      evalBuckets K bh st1 buckets m n_pix n_pp poso B0 = .ok B →
      B0.length = L →
      (∀ blk ∈ B0, blk.length = m ∧ ∀ row ∈ blk, row.length = n_pix) →
      B.length = L ∧ ∀ blk ∈ B, blk.length = m ∧ ∀ row ∈ blk, row.length = n_pix := by
  intro buckets
  induction buckets with
  | nil =>
    intro B0 B _ hB hlen hdims
    cases hB
    exact ⟨hlen, hdims⟩
  | cons bucket rest ih =>
    intro B0 B hmem hB hlen hdims
    unfold evalBuckets at hB ih
    rw [List.foldlM_cons] at hB
    by_cases hb : bucket.isEmpty
    · rw [if_pos hb] at hB
      exact ih B0 B (fun b hbm => hmem b (List.mem_cons_of_mem _ hbm)) hB hlen hdims
    · rw [if_neg hb] at hB
      rcases hdict : get_src_dict st1 (bucket.map (fun p : ℕ × SrcObj => p.2))
          n_pix n_pp poso with e | d
      · simp only [hdict] at hB
        cases hB
      · simp only [hdict] at hB
        have hlens := get_src_dict_lengths st1
          (bucket.map (fun p : ℕ × SrcObj => p.2)) m n_pix n_pp poso d hdict
          (fun src hsrc => by
            rcases List.mem_map.mp hsrc with ⟨p, hp, rfl⟩
            exact hmem bucket (List.mem_cons_self _ _) p hp)
          hpp hposo
        have hflat : (getBH_level1 K bh d).length =
            (bucket.map (fun p : ℕ × SrcObj => p.2)).length * (m * n_pix) := by
          rw [getBH_level1_length, hlens.1, hlens.2.1, hlens.2.2.1, hlens.2.2.2,
            min_self, min_self, min_self, hpp]
        have hres := reshapeB_dims (bucket.map (fun p : ℕ × SrcObj => p.2)).length
          m n_pix (getBH_level1 K bh d) hflat
        have hsc := scatterGroup_dims L m n_pix B0
          (bucket.map (fun p : ℕ × SrcObj => p.1))
          (reshapeB (bucket.map (fun p : ℕ × SrcObj => p.2)).length m n_pix
            (getBH_level1 K bh d)) ⟨hlen, hdims⟩ hres.2
        exact ih _ B (fun b hbm => hmem b (List.mem_cons_of_mem _ hbm)) hB
          hsc.1 hsc.2

/-- The elementwise sum of a non-empty stack of uniform blocks has the same
dimensions as each block. -/
theorem sumRank2_dims (m n_pix : ℕ) (Bs : Rank3) (hne : Bs ≠ [])
    (h : ∀ blk ∈ Bs, blk.length = m ∧ ∀ row ∈ blk, row.length = n_pix) :
    (sumRank2 Bs).length = m ∧ ∀ row ∈ sumRank2 Bs, row.length = n_pix := by
  cases Bs with
  | nil => exact absurd rfl hne
  | cons b bs =>
    show ((bs.foldl addRank2 b).length = m ∧ _)
    refine foldl_invariant (fun acc : Rank2 => acc.length = m ∧
      ∀ row ∈ acc, row.length = n_pix) _ _ _ (h b (List.mem_cons_self b bs)) ?_
    intro acc blk hblk hacc
    have hbd := h blk (List.mem_cons_of_mem b hblk)
    constructor
    · unfold addRank2
      rw [List.length_zipWith, hacc.1, hbd.1, min_self]
    · intro row hrow
      rcases mem_zipWith_strong _ _ _ row hrow with ⟨r1, hr1, r2, hr2, rfl⟩
      rw [List.length_zipWith, hacc.2 r1 hr1, hbd.2 r2 hr2, min_self]

/-- The Collection rearrangement loop shrinks the leading axis from the flat count
to the top-level count and preserves the row dimensions, provided no Collection is
empty. -/
theorem collapse_dims (m n_pix : ℕ) : ∀ (sources : List SrcInput) (B : Rank3),
    B.length = ((format_src_inputs sources).2).length →
    (∀ blk ∈ B, blk.length = m ∧ ∀ row ∈ blk, row.length = n_pix) →
    (∀ ss, SrcInput.col ss ∈ sources → ss ≠ []) →
    (collapseCollections sources B).length = sources.length ∧
    ∀ blk ∈ collapseCollections sources B, blk.length = m ∧
      ∀ row ∈ blk, row.length = n_pix := by
  intro sources
  induction sources with
  | nil =>
    intro B hlen hdims _
    simp only [format_src_inputs, List.flatMap_nil, List.length_nil] at hlen
    rw [List.length_eq_zero] at hlen
    subst hlen
    exact ⟨rfl, by intro blk hblk; cases hblk⟩
  | cons entry rest ih =>
    intro B hlen hdims hcols
    cases entry with
    | src s =>
      have hflat : (format_src_inputs (SrcInput.src s :: rest)).2 =
          s :: (format_src_inputs rest).2 := rfl
      rw [hflat, List.length_cons] at hlen
      cases B with
      | nil => simp only [List.length_nil] at hlen; omega
      | cons b bs =>
        rw [List.length_cons] at hlen
        have ihr := ih bs (by omega)
          (fun blk hblk => hdims blk (List.mem_cons_of_mem b hblk))
          (fun ss hss => hcols ss (List.mem_cons_of_mem _ hss))
        refine ⟨?_, ?_⟩
        · show (b :: collapseCollections rest bs).length = rest.length + 1
          rw [List.length_cons, ihr.1]
        · intro blk hblk
          rcases List.mem_cons.mp hblk with rfl | hrest
          · exact hdims blk (List.mem_cons_self _ _)
          · exact ihr.2 blk hrest
    | col ss =>
      have hflat : (format_src_inputs (SrcInput.col ss :: rest)).2 =
          ss ++ (format_src_inputs rest).2 := rfl
      rw [hflat, List.length_append] at hlen
      have hne : ss ≠ [] := hcols ss (List.mem_cons_self _ _)
      have hne1 : 1 ≤ ss.length := by
        rcases ss with _ | ⟨a, t⟩
        · exact absurd rfl hne
        · simp
      have htake : (B.take ss.length) ≠ [] := by
        intro hc
        have hc' := congrArg List.length hc
        rw [List.length_take, List.length_nil] at hc'
        rcases Nat.min_eq_zero_iff.mp hc' with h0 | h0 <;> omega
      have hsum := sumRank2_dims m n_pix (B.take ss.length) htake
        (fun blk hblk => hdims blk (List.mem_of_mem_take hblk))
      have ihr := ih (B.drop ss.length) (by rw [List.length_drop, hlen]; omega)
        (fun blk hblk => hdims blk (List.mem_of_mem_drop hblk))
        (fun ss' hss' => hcols ss' (List.mem_cons_of_mem _ hss'))
      refine ⟨?_, ?_⟩
      · show (sumRank2 (B.take ss.length) :: collapseCollections rest
          (B.drop ss.length)).length = rest.length + 1
        rw [List.length_cons, ihr.1]
      · intro blk hblk
        rcases List.mem_cons.mp hblk with rfl | hrest
        · exact hsum
        · exact ihr.2 blk hrest

/-- The per-sensor back-rotation preserves the block dimensions. -/
theorem applySensorRotation_dims (m n_pix : ℕ) (st1 : Store) (sens : SensorObj)
    (unrot staticRot : Bool) (i k_pixel : ℕ) (B : Rank3)
    (hdims : B.length = L ∧ ∀ blk ∈ B, blk.length = m ∧
      ∀ row ∈ blk, row.length = n_pix) :
    (applySensorRotation st1 sens unrot staticRot i k_pixel B).length = L ∧
    ∀ blk ∈ applySensorRotation st1 sens unrot staticRot i k_pixel B,
      blk.length = m ∧ ∀ row ∈ blk, row.length = n_pix := by
  unfold applySensorRotation
  by_cases hu : unrot = true
  · rw [if_pos hu]
    exact hdims
  · rw [if_neg hu]
    refine ⟨by rw [List.length_map]; exact hdims.1, fun blk hblk => ?_⟩
    rcases List.mem_map.mp hblk with ⟨blk0, hblk0, rfl⟩
    have hbd := hdims.2 blk0 hblk0
    refine ⟨by rw [List.length_map, List.enum_length]; exact hbd.1,
      fun row hrow => ?_⟩
    rcases List.mem_map.mp hrow with ⟨jstep, hjs, rfl⟩
    rw [mapSlice_length]
    exact hbd.2 jstep.2 (List.snd_mem_of_mem_enum hjs)

/-- The sensor rotation loop preserves the block dimensions. -/
theorem rotationStage_dims (L m n_pix : ℕ) (st1 : Store)
    (sensors : List SensorObj) (uFlags sFlags : List Bool) (k_pixel : ℕ)
    (B : Rank3)
    (hdims : B.length = L ∧ ∀ blk ∈ B, blk.length = m ∧
      ∀ row ∈ blk, row.length = n_pix) :
    (rotationStage st1 sensors uFlags sFlags k_pixel B).length = L ∧
    ∀ blk ∈ rotationStage st1 sensors uFlags sFlags k_pixel B,
      blk.length = m ∧ ∀ row ∈ blk, row.length = n_pix := by
  unfold rotationStage
  refine foldl_invariant (fun B' : Rank3 => B'.length = L ∧
    ∀ blk ∈ B', blk.length = m ∧ ∀ row ∈ blk, row.length = n_pix) _ _ _ hdims ?_
  intro acc isens _ hacc
  exact applySensorRotation_dims m n_pix st1 isens.2 _ _ isens.1 k_pixel acc hacc

/-- A list of identical entries passes the `all_same` check. -/
theorem all_same_of_const {α : Type} [DecidableEq α] (l : List α) (c : α)
    (h : ∀ x ∈ l, x = c) : all_same l = true := by
  cases l with
  | nil => rfl
  | cons x xs =>
    unfold all_same
    rw [List.all_eq_true]
    intro y hy
    rw [h y (List.mem_cons_of_mem x hy), h x (List.mem_cons_self x xs)]
    simp

/-- Sum of a constant-valued map. -/
theorem sum_map_const {α : Type} (l : List α) (f : α → ℕ) (c : ℕ)
    (h : ∀ x ∈ l, f x = c) : (l.map f).sum = l.length * c := by
  induction l with
  | nil => simp
  | cons a t ih =>
    simp only [List.map_cons, List.sum_cons, List.length_cons,
      h a (List.mem_cons_self a t),
      ih (fun x hx => h x (List.mem_cons_of_mem a hx))]
    ring

/-- With no empty Collections the flat source list is at least as long as the
top-level entry list. -/
theorem length_le_flat (sourcesIn : List SrcInput)
    (hcols : ∀ ss, SrcInput.col ss ∈ sourcesIn → ss ≠ []) :
    sourcesIn.length ≤ ((format_src_inputs sourcesIn).2).length := by
  induction sourcesIn with
  | nil => simp
  | cons entry rest ih =>
    have ihr := ih (fun ss hss => hcols ss (List.mem_cons_of_mem _ hss))
    cases entry with
    | src s =>
      have : (format_src_inputs (SrcInput.src s :: rest)).2 =
          s :: (format_src_inputs rest).2 := rfl
      rw [this, List.length_cons, List.length_cons]
      omega
    | col ss =>
      have : (format_src_inputs (SrcInput.col ss :: rest)).2 =
          ss ++ (format_src_inputs rest).2 := rfl
      rw [this, List.length_append, List.length_cons]
      have hne : ss ≠ [] := hcols ss (List.mem_cons_self _ _)
      have : 1 ≤ ss.length := by
        rcases ss with _ | ⟨a, t⟩
        · exact absurd rfl hne
        · simp
      omega

/-- Every sensor's key is a participant. -/
theorem sensor_mem_participantIds (sourcesIn : List SrcInput)
    (sensors : List SensorObj) (s : SensorObj) (hs : s ∈ sensors) :
    s.id ∈ participantIds sourcesIn sensors := by
  unfold participantIds
  exact List.mem_dedup.mpr
    (List.mem_append_right _ (List.mem_map.mpr ⟨s, hs, rfl⟩))

/-- Every flat source's key is a participant. -/
theorem source_mem_participantIds (sourcesIn : List SrcInput)
    (sensors : List SensorObj) (src : SrcObj)
    (hsrc : src ∈ (format_src_inputs sourcesIn).2) :
    src.id ∈ participantIds sourcesIn sensors := by
  unfold participantIds
  exact List.mem_dedup.mpr
    (List.mem_append_left _ (List.mem_map.mpr ⟨src, hsrc, rfl⟩))

/-- Every member of a grouping-loop bucket is a flat-list source. -/
theorem bucket_mem_src_list (src_list : List SrcObj)
    (bucket : List (ℕ × SrcObj)) (hbucket : bucket ∈ sortSources src_list)
    (p : ℕ × SrcObj) (hp : p ∈ bucket) : p.2 ∈ src_list := by
  rcases List.mem_map.mp hbucket with ⟨t, _, rfl⟩
  exact List.snd_mem_of_mem_enum (List.mem_filter.mp hp).1

/-- C4: on every successful call the returned dense array has pre-squeeze shape
`(L0, m, K, pixel-shape..., 3)` — `L0` top-level source entries, `m` the aligned
maximum path length, `K` sensors, then the common pixel-grid leading axes and the
trailing 3 — where `sumup = true` first collapses the leading `L0` axis by
summation and `squeeze = true` then removes every axis of length 1; the recorded
shape is consistent with the flattened data (their element counts agree). -/
theorem output_shape_contract (K : Kernel) (uninit : Vec3) (bh : Bool)
    (sourcesIn : List SrcInput) (sensors : List SensorObj) (sumup squeeze : Bool)
    (st : Store) (leading : List ℕ)
    (hsrc_ne : sourcesIn ≠ [])
    (hsens_ne : sensors ≠ [])
    (hshape : ∀ s ∈ sensors, s.pixShape = leading ++ [3])
    (hpixcount : ∀ s ∈ sensors, s.pixel.length = leading.prod)
    (hcols : ∀ ss, SrcInput.col ss ∈ sourcesIn → ss ≠ [])
    (hwf : ∀ id ∈ participantIds sourcesIn sensors,
      1 ≤ ((st id).position).length ∧
      ((st id).orientation).length = ((st id).position).length) :
    ∃ out, (getBH_level2 K uninit bh sourcesIn sensors sumup squeeze st).1 = .ok out
      ∧ out.shape =
        (let shape0 := [sourcesIn.length,
            maxPathLength st (participantIds sourcesIn sensors), sensors.length] ++
            leading ++ [3]
        let shape1 := if sumup then shape0.drop 1 else shape0
        if squeeze then shape1.filter (fun a => decide (a ≠ 1)) else shape1)
      ∧ out.shape.prod = 3 * out.data.length := by
  have hnd : (participantIds sourcesIn sensors).Nodup := List.nodup_dedup _
  have hsame : all_same (sensors.map fun s => s.pixShape) = true :=
    all_same_of_const _ (leading ++ [3]) (by
      intro x hx
      rcases List.mem_map.mp hx with ⟨s, hs, rfl⟩
      exact hshape s hs)
  have hhead : (List.map (fun s => s.pixShape) sensors).headD [] =
      leading ++ [3] := by
    cases sensors with
    | nil => exact absurd rfl hsens_ne
    | cons s0 rest =>
      simp only [List.map_cons, List.headD_cons]
      exact hshape s0 (List.mem_cons_self s0 rest)
  have hst1len : ∀ id ∈ participantIds sourcesIn sensors,
      (((tileStore st (participantIds sourcesIn sensors)) id).position).length =
        maxPathLength st (participantIds sourcesIn sensors) ∧
      (((tileStore st (participantIds sourcesIn sensors)) id).orientation).length =
        maxPathLength st (participantIds sourcesIn sensors) :=
    fun id hid => tileStore_lengths st _ hnd id hid (hwf id hid).1 (hwf id hid).2
  have hM1 : 1 ≤ maxPathLength st (participantIds sourcesIn sensors) := by
    cases sensors with
    | nil => exact absurd rfl hsens_ne
    | cons s0 rest =>
      have hmem := sensor_mem_participantIds sourcesIn (s0 :: rest) s0
        (List.mem_cons_self s0 rest)
      exact le_trans (hwf s0.id hmem).1
        (le_maxPathLength st (participantIds sourcesIn (s0 :: rest)) s0.id hmem)
  have hsteps := posoSteps_dims (tileStore st (participantIds sourcesIn sensors))
    (maxPathLength st (participantIds sourcesIn sensors)) sensors hsens_ne
    (fun s hs => ⟨(hst1len s.id (sensor_mem_participantIds sourcesIn sensors s hs)).1,
      (hst1len s.id (sensor_mem_participantIds sourcesIn sensors s hs)).2⟩)
  have hsum : (sensors.map (fun s => s.pixel.length)).sum =
      sensors.length * leading.prod :=
    sum_map_const sensors _ leading.prod hpixcount
  have hposolen : ((posoSteps (tileStore st (participantIds sourcesIn sensors))
      sensors).flatten).length =
      maxPathLength st (participantIds sourcesIn sensors) *
        (sensors.length * leading.prod) := by
    rw [length_flatten_uniform _ (sensors.length * leading.prod)
      (fun row hrow => by rw [hsteps.2 row hrow, hsum]), hsteps.1]
  have hnpix : ((posoSteps (tileStore st (participantIds sourcesIn sensors))
      sensors).flatten).length /
      maxPathLength st (participantIds sourcesIn sensors) =
      sensors.length * leading.prod := by
    rw [hposolen]
    exact Nat.mul_div_cancel_left _ hM1
  obtain ⟨B, hB⟩ := evalBuckets_sortSources_isOk K bh
    (tileStore st (participantIds sourcesIn sensors))
    (format_src_inputs sourcesIn).2
    (maxPathLength st (participantIds sourcesIn sensors))
    (((posoSteps (tileStore st (participantIds sourcesIn sensors))
      sensors).flatten).length /
      maxPathLength st (participantIds sourcesIn sensors))
    ((posoSteps (tileStore st (participantIds sourcesIn sensors))
      sensors).flatten).length
    ((posoSteps (tileStore st (participantIds sourcesIn sensors)) sensors).flatten)
    (List.replicate ((format_src_inputs sourcesIn).2).length
      (List.replicate (maxPathLength st (participantIds sourcesIn sensors))
        (List.replicate
          (((posoSteps (tileStore st (participantIds sourcesIn sensors))
            sensors).flatten).length /
            maxPathLength st (participantIds sourcesIn sensors)) uninit)))
  have hBdims := evalBuckets_dims K bh
    (tileStore st (participantIds sourcesIn sensors))
    (maxPathLength st (participantIds sourcesIn sensors))
    (sensors.length * leading.prod)
    (((posoSteps (tileStore st (participantIds sourcesIn sensors))
      sensors).flatten).length)
    ((format_src_inputs sourcesIn).2).length
    ((posoSteps (tileStore st (participantIds sourcesIn sensors)) sensors).flatten)
    (by rw [hposolen]) rfl
    (sortSources (format_src_inputs sourcesIn).2) _ B
    (fun bucket hbucket p hp =>
      hst1len p.2.id (source_mem_participantIds sourcesIn sensors p.2
        (bucket_mem_src_list _ bucket hbucket p hp)))
    (by rw [← hnpix]; exact hB)
    (List.length_replicate _ _)
    (fun blk hblk => by
      rw [List.eq_of_mem_replicate hblk]
      refine ⟨List.length_replicate _ _, fun row hrow => ?_⟩
      rw [List.eq_of_mem_replicate hrow, List.length_replicate, hnpix])
  simp only [getBH_level2, getBH_level2_aux]
  rw [if_pos hsame, hB]
  refine ⟨_, rfl, ?_, ?_⟩
  · rw [hhead]
    rfl
  · have hl0l : sourcesIn.length ≤ ((format_src_inputs sourcesIn).2).length :=
      length_le_flat sourcesIn hcols
    have hfst : (format_src_inputs sourcesIn).1 = sourcesIn := rfl
    set B1 := (if ((format_src_inputs sourcesIn).1).length <
        ((format_src_inputs sourcesIn).2).length then
      collapseCollections (format_src_inputs sourcesIn).1 B else B) with hB1def
    set B2 := rotationStage (tileStore st (participantIds sourcesIn sensors))
      sensors
      (sensors.map fun s =>
        ((st s.id).orientation).all (fun r => decide (r = Quat.unit)))
      (check_static_sensor_orient st sensors)
      (((List.map (fun s => s.pixShape) sensors).headD []).dropLast).prod B1
      with hB2def
    have hB1dims : B1.length = sourcesIn.length ∧
        ∀ blk ∈ B1,
          blk.length = maxPathLength st (participantIds sourcesIn sensors) ∧
          ∀ row ∈ blk, row.length = sensors.length * leading.prod := by
      rw [hB1def]
      by_cases hc : ((format_src_inputs sourcesIn).1).length <
          ((format_src_inputs sourcesIn).2).length
      · rw [if_pos hc, hfst]
        exact collapse_dims _ _ sourcesIn B hBdims.1 hBdims.2 hcols
      · rw [if_neg hc]
        rw [hfst] at hc
        refine ⟨?_, hBdims.2⟩
        rw [hBdims.1]
        omega
    have hB2dims : B2.length = sourcesIn.length ∧
        ∀ blk ∈ B2,
          blk.length = maxPathLength st (participantIds sourcesIn sensors) ∧
          ∀ row ∈ blk, row.length = sensors.length * leading.prod := by
      rw [hB2def]
      exact rotationStage_dims sourcesIn.length
        (maxPathLength st (participantIds sourcesIn sensors))
        (sensors.length * leading.prod)
        (tileStore st (participantIds sourcesIn sensors)) sensors _ _ _ B1 hB1dims
    rw [hhead]
    have hl0pos : 0 < sourcesIn.length := List.length_pos.mpr hsrc_ne
    rcases hB2dims with ⟨hB2len, hB2blk⟩
    by_cases hsu : sumup = true
    · have hne2 : B2 ≠ [] := by
        intro hc
        rw [hc] at hB2len
        simp only [List.length_nil] at hB2len
        omega
      have hsdims := sumRank2_dims
        (maxPathLength st (participantIds sourcesIn sensors))
        (sensors.length * leading.prod) B2 hne2 hB2blk
      have hdata : ((sumRank2 B2).flatten).length =
          maxPathLength st (participantIds sourcesIn sensors) *
            (sensors.length * leading.prod) := by
        rw [length_flatten_uniform _ _ hsdims.2, hsdims.1]
      rw [hsu]
      simp only [if_true, hdata]
      by_cases hsq : squeeze = true
      · rw [hsq, if_pos rfl, prod_filter_ne_one]
        simp only [List.drop, List.append_eq, List.cons_append, List.nil_append,
          List.prod_append, List.prod_cons, List.prod_nil]
        ring
      · rw [if_neg hsq]
        simp only [List.drop, List.append_eq, List.cons_append, List.nil_append,
          List.prod_append, List.prod_cons, List.prod_nil]
        ring
    · have hdata : ((B2.flatten).flatten).length =
          sourcesIn.length * (maxPathLength st (participantIds sourcesIn sensors) *
            (sensors.length * leading.prod)) := by
        rw [length_flatten_uniform _ (sensors.length * leading.prod)
          (fun row hrow => by
            rcases List.mem_flatten.mp hrow with ⟨blk, hblk, hr⟩
            exact (hB2blk blk hblk).2 row hr),
          length_flatten_uniform _
            (maxPathLength st (participantIds sourcesIn sensors))
            (fun blk hblk => (hB2blk blk hblk).1), hB2len]
        ring
      rw [if_neg hsu, if_neg hsu, hdata]
      by_cases hsq : squeeze = true
      · rw [hsq, if_pos rfl, prod_filter_ne_one]
        simp only [List.append_eq, List.cons_append, List.nil_append,
          List.prod_append, List.prod_cons, List.prod_nil, hfst]
        ring
      · rw [if_neg hsq]
        simp only [List.append_eq, List.cons_append, List.nil_append,
          List.prod_append, List.prod_cons, List.prod_nil, hfst]
        ring

theorem output_shape_contract_witness :
    ∃ out, (getBH_level2 testKernel 0 true [.src srcCuboidA] [sensA] false false
        stWitA).1 = .ok out
      ∧ out.shape =
        (let shape0 := [([SrcInput.src srcCuboidA]).length,
            maxPathLength stWitA (participantIds [.src srcCuboidA] [sensA]),
            ([sensA]).length] ++ [] ++ [3]
        let shape1 := if false then shape0.drop 1 else shape0
        if false then shape1.filter (fun a => decide (a ≠ 1)) else shape1)
      ∧ out.shape.prod = 3 * out.data.length :=
  output_shape_contract testKernel 0 true [.src srcCuboidA] [sensA] false false
    stWitA [] (by decide) (by decide) (by decide) (by decide)
    (by intro ss hss; simp at hss) (by decide)

/-- Indexing with default into a constant-valued list stays at that value or the
identical default. -/
theorem getD_of_all (l : List Quat) (c : Quat) (h : ∀ q ∈ l, q = c) (j : ℕ)
    (hdef : c = Quat.unit ∨ j < l.length) : l.getD j Quat.unit = c := by
  induction l generalizing j with
  | nil =>
    rcases hdef with rfl | hj
    · rfl
    · cases (Nat.not_lt_zero j) hj
  | cons a t ih =>
    cases j with
    | zero => exact h a (List.mem_cons_self a t)
    | succ j' =>
      have ht : ∀ q ∈ t, q = c := fun q hq => h q (List.mem_cons_of_mem a hq)
      rcases hdef with rfl | hj
      · exact ih ht j' (Or.inl rfl)
      · exact ih ht j' (Or.inr (by simpa using hj))

/-- The defaulted last element of a constant-valued list equals that constant,
provided the default agrees when the list is empty. -/
theorem getLastD_of_all (l : List Quat) (c d : Quat) (h : ∀ q ∈ l, q = c)
    (hd : l = [] → d = c) : l.getLastD d = c := by
  induction l generalizing c d with
  | nil => exact hd rfl
  | cons a t ih =>
    rw [List.getLastD_cons]
    exact ih c a (fun q hq => h q (List.mem_cons_of_mem a hq))
      (fun _ => h a (List.mem_cons_self a t))

/-- Overwriting a slice with a pointwise identity is the identity. -/
theorem mapSlice_id_of_pointwise {α : Type} (f : α → α) (s k : ℕ) (xs : List α)
    (h : ∀ x, f x = x) : mapSlice f s k xs = xs := by
  unfold mapSlice
  rw [List.map_congr_left (fun x _ => h x), List.map_id', ← List.drop_drop,
    List.append_assoc, List.take_append_drop, List.take_append_drop]

/-- Congruence of folds whose step functions agree on the fold's elements. -/
theorem foldl_congr_mem {α β : Type} (f g : α → β → α) (l : List β) (a : α)
    (H : ∀ acc x, x ∈ l → f acc x = g acc x) : l.foldl f a = l.foldl g a := by
  induction l generalizing a with
  | nil => rfl
  | cons b t ih =>
    simp only [List.foldl_cons]
    rw [H a b (List.mem_cons_self b t)]
    exact ih _ (fun acc x hx => H acc x (List.mem_cons_of_mem b hx))

/-- After tiling, a sensor whose original orientation path was all-unit still reads
as the unit rotation at every step index. -/
theorem tileStore_orientation_unit (st : Store) (objList : List ℕ)
    (hnd : objList.Nodup) (id : ℕ)
    (hall : ∀ q ∈ (st id).orientation, q = Quat.unit) (j : ℕ) :
    (((tileStore st objList) id).orientation).getD j Quat.unit = Quat.unit := by
  rw [tileStore_get st objList hnd id]
  by_cases hc : 1 < maxPathLength st objList ∧ id ∈ objList ∧
      maxPathLength st objList ≠ ((st id).position).length
  · rw [if_pos hc]
    refine getD_of_all _ _ ?_ j (Or.inl rfl)
    intro q hq
    rcases List.mem_append.mp hq with hq | hq
    · exact hall q hq
    · rw [List.eq_of_mem_replicate hq]
      exact getLastD_of_all _ _ _ hall (fun _ => rfl)
  · rw [if_neg hc]
    exact getD_of_all _ _ hall j (Or.inl rfl)

/-- After tiling, a sensor flagged as statically oriented reads the same rotation at
every step index below the common maximum path length. -/
theorem tileStore_orientation_static (st : Store) (objList : List ℕ)
    (hnd : objList.Nodup) (id : ℕ) (hmem : id ∈ objList)
    (horlen : ((st id).orientation).length = ((st id).position).length)
    (hstatic : ∀ q ∈ (st id).orientation,
      q = ((st id).orientation).headD Quat.unit)
    (j : ℕ) (hj : j < maxPathLength st objList) :
    (((tileStore st objList) id).orientation).getD j Quat.unit =
      (((tileStore st objList) id).orientation).getD 0 Quat.unit := by
  have hle := le_maxPathLength st objList id hmem
  have htl : ∀ q ∈ (((tileStore st objList) id).orientation),
      q = ((st id).orientation).headD Quat.unit := by
    rw [tileStore_get st objList hnd id]
    by_cases hc : 1 < maxPathLength st objList ∧ id ∈ objList ∧
        maxPathLength st objList ≠ ((st id).position).length
    · rw [if_pos hc]
      intro q hq
      rcases List.mem_append.mp hq with hq | hq
      · exact hstatic q hq
      · rw [List.eq_of_mem_replicate hq]
        exact getLastD_of_all _ _ _ hstatic (fun hl => by rw [hl]; rfl)
    · rw [if_neg hc]
      exact hstatic
  rcases horig : (st id).orientation with _ | ⟨q0, qs⟩
  · have hunit : ∀ q ∈ (((tileStore st objList) id).orientation), q = Quat.unit := by
      intro q hq
      rw [htl q hq, horig]
      rfl
    rw [getD_of_all _ _ hunit j (Or.inl rfl), getD_of_all _ _ hunit 0 (Or.inl rfl)]
  · have hlen : (((tileStore st objList) id).orientation).length =
        maxPathLength st objList := by
      rw [tileStore_get st objList hnd id]
      have h1 : 1 ≤ ((st id).orientation).length := by
        rw [horig, List.length_cons]
        omega
      by_cases hc : 1 < maxPathLength st objList ∧ id ∈ objList ∧
          maxPathLength st objList ≠ ((st id).position).length
      · rw [if_pos hc]
        simp only [tilePath, List.length_append, List.length_replicate]
        omega
      · rw [if_neg hc]
        have hd : ¬(1 < maxPathLength st objList) ∨
            maxPathLength st objList = ((st id).position).length := by tauto
        rcases hd with hd | hd <;> omega
    rw [getD_of_all _ _ htl j (Or.inr (by omega)),
      getD_of_all _ _ htl 0 (Or.inr (by omega))]

/-- The elementwise block sum never has more path steps than any bound on its
summands. -/
theorem sumRank2_length_le (m : ℕ) (Bs : Rank3)
    (h : ∀ blk ∈ Bs, blk.length ≤ m) : (sumRank2 Bs).length ≤ m := by
  cases Bs with
  | nil => simp [sumRank2]
  | cons b bs =>
    show (bs.foldl addRank2 b).length ≤ m
    refine foldl_invariant (fun acc : Rank2 => acc.length ≤ m) _ _ _
      (h b (List.mem_cons_self b bs)) ?_
    intro acc blk hblk hacc
    unfold addRank2
    rw [List.length_zipWith]
    omega

/-- Every block the bucket evaluation produces has at most `m` path steps (the
scattered reshaped blocks have exactly `m`). -/
theorem evalBuckets_rows_le (K : Kernel) (bh : Bool) (st1 : Store)
    (m n_pix n_pp : ℕ) (poso : List Vec3) :
    ∀ (buckets : List (List (ℕ × SrcObj))) (B0 B : Rank3),
      evalBuckets K bh st1 buckets m n_pix n_pp poso B0 = .ok B →
      (∀ blk ∈ B0, blk.length ≤ m) → ∀ blk ∈ B, blk.length ≤ m := by
  intro buckets
  induction buckets with
  | nil =>
    intro B0 B hB h
    cases hB
    exact h
  | cons bucket rest ih =>
    intro B0 B hB h
    unfold evalBuckets at hB ih
    rw [List.foldlM_cons] at hB
    by_cases hb : bucket.isEmpty
    · rw [if_pos hb] at hB
      exact ih B0 B hB h
    · rw [if_neg hb] at hB
      rcases hdict : get_src_dict st1 (bucket.map (fun p : ℕ × SrcObj => p.2))
          n_pix n_pp poso with e | d
      · simp only [hdict] at hB
        cases hB
      · simp only [hdict] at hB
        refine ih _ B hB ?_
        intro blk hblk
        unfold scatterGroup at hblk
        refine foldl_invariant (fun B' : Rank3 => ∀ b ∈ B', b.length ≤ m)
          (fun (B : Rank3) (p : ℕ × Rank2) => B.set p.1 p.2)
          ((bucket.map (fun p : ℕ × SrcObj => p.1)).zip
            (reshapeB (bucket.map (fun p : ℕ × SrcObj => p.2)).length m n_pix
              (getBH_level1 K bh d)))
          B0 h ?_ blk hblk
        intro acc p hp hacc b hb'
        rcases List.mem_or_eq_of_mem_set hb' with hmem | rfl
        · exact hacc b hmem
        · have hp2 := (List.of_mem_zip hp).2
          unfold reshapeB at hp2
          rcases List.mem_map.mp hp2 with ⟨sb, _, heq⟩
          rw [← heq, chunks_length]

/-- Every block the Collection rearrangement produces has at most `m` path
steps. -/
theorem collapse_rows_le (m : ℕ) : ∀ (sources : List SrcInput) (B : Rank3),
    (∀ blk ∈ B, blk.length ≤ m) →
    ∀ blk ∈ collapseCollections sources B, blk.length ≤ m := by
  intro sources
  induction sources with
  | nil => exact fun B h => h
  | cons entry rest ih =>
    intro B h blk hblk
    cases entry with
    | src s =>
      cases B with
      | nil => cases hblk
      | cons b bs =>
        rcases List.mem_cons.mp hblk with rfl | hrest
        · exact h blk (List.mem_cons_self _ _)
        · exact ih bs (fun x hx => h x (List.mem_cons_of_mem b hx)) blk hrest
    | col ss =>
      rcases List.mem_cons.mp hblk with rfl | hrest
      · exact sumRank2_length_le m _ (fun x hx => h x (List.mem_of_mem_take hx))
      · exact ih _ (fun x hx => h x (List.mem_of_mem_drop hx)) blk hrest

/-- One sensor's fast-path back-rotation (skip when unrotated, batch when
statically rotated) agrees with the fully general per-step back-rotation on every
block whose step count respects the aligned path length. -/
theorem applySensorRotation_eq_general (st : Store) (objList : List ℕ)
    (hnd : objList.Nodup) (sens : SensorObj) (hmem : sens.id ∈ objList)
    (horlen : ((st sens.id).orientation).length = ((st sens.id).position).length)
    (i k_pixel : ℕ) (B : Rank3)
    (hrows : ∀ blk ∈ B, blk.length ≤ maxPathLength st objList) :
    applySensorRotation (tileStore st objList) sens
      (((st sens.id).orientation).all (fun r => decide (r = Quat.unit)))
      (match (st sens.id).orientation with
        | [] => true
        | q :: qs => qs.all (fun r => decide (r = q)))
      i k_pixel B =
    applySensorRotationGeneral (tileStore st objList) sens i k_pixel B := by
  unfold applySensorRotation applySensorRotationGeneral
  by_cases hu : ((st sens.id).orientation).all (fun r => decide (r = Quat.unit)) =
      true
  · rw [if_pos hu]
    have hall : ∀ q ∈ (st sens.id).orientation, q = Quat.unit := by
      intro q hq
      exact of_decide_eq_true (List.all_eq_true.mp hu q hq)
    symm
    rw [List.map_congr_left (fun blk hblk => ?_), List.map_id']
    rw [List.map_congr_left (fun jstep hjs => ?_), List.enum_map_snd]
    rw [mapSlice_id_of_pointwise _ _ _ _ (fun v => ?_)]
    rw [tileStore_orientation_unit st objList hnd sens.id hall jstep.1,
      Quat.conj_unit, Quat.apply_unit]
  · rw [if_neg hu]
    refine List.map_congr_left (fun blk hblk => ?_)
    refine List.map_congr_left (fun jstep hjs => ?_)
    by_cases hs : (match (st sens.id).orientation with
        | [] => true
        | q :: qs => qs.all (fun r => decide (r = q))) = true
    · have hstatic : ∀ q ∈ (st sens.id).orientation,
          q = ((st sens.id).orientation).headD Quat.unit := by
        rcases horient : (st sens.id).orientation with _ | ⟨q0, qs⟩
        · intro q hq; cases hq
        · rw [horient] at hs
          intro q hq
          simp only [List.headD_cons]
          rcases List.mem_cons.mp hq with rfl | hq'
          · rfl
          · exact of_decide_eq_true (List.all_eq_true.mp hs q hq')
      have hj : jstep.1 < maxPathLength st objList := by
        have hj1 : jstep.1 < blk.length := by
          have h1 := List.mem_enum_iff_getElem?.mp hjs
          rcases List.getElem?_eq_some.mp h1 with ⟨hlt, _⟩
          exact hlt
        exact lt_of_lt_of_le hj1 (hrows blk hblk)
      have hrot : sensorRotAt (tileStore st objList) sens true jstep.1 =
          fun v => ((((tileStore st objList) sens.id).orientation).getD jstep.1
            Quat.unit).conj.apply v := by
        funext v
        unfold sensorRotAt
        rw [if_pos rfl,
          tileStore_orientation_static st objList hnd sens.id hmem horlen hstatic
            jstep.1 hj]
      rw [hs, hrot]
    · have hs' : (match (st sens.id).orientation with
          | [] => true
          | q :: qs => qs.all (fun r => decide (r = q))) = false :=
        Bool.eq_false_iff.mpr hs
      rw [hs']
      rfl

/-- Congruence of folds that agree on all inputs reachable under an invariant. -/
theorem foldl_congr_inv {α β : Type} (P : α → Prop) (f g : α → β → α) (l : List β)
    (a : α) (ha : P a)
    (hpres : ∀ acc b, b ∈ l → P acc → P (f acc b))
    (heq : ∀ acc b, b ∈ l → P acc → f acc b = g acc b) :
    l.foldl f a = l.foldl g a := by
  induction l generalizing a with
  | nil => rfl
  | cons b t ih =>
    simp only [List.foldl_cons]
    rw [← heq a b (List.mem_cons_self b t) ha]
    exact ih (f a b) (hpres a b (List.mem_cons_self b t) ha)
      (fun acc x hx hP => hpres acc x (List.mem_cons_of_mem b hx) hP)
      (fun acc x hx hP => heq acc x (List.mem_cons_of_mem b hx) hP)

/-- One sensor's back-rotation never changes the number of path steps of any
block. -/
theorem applySensorRotation_rows_le (mb : ℕ) (st1 : Store) (sens : SensorObj)
    (u s : Bool) (i k : ℕ) (B : Rank3) (h : ∀ blk ∈ B, blk.length ≤ mb) :
    ∀ blk ∈ applySensorRotation st1 sens u s i k B, blk.length ≤ mb := by
  unfold applySensorRotation
  by_cases hu : u = true
  · rw [if_pos hu]
    exact h
  · rw [if_neg hu]
    intro blk hblk
    rcases List.mem_map.mp hblk with ⟨blk0, hblk0, rfl⟩
    rw [List.length_map, List.enum_length]
    exact h blk0 hblk0

/-- The sensor rotation loop with the "unit rotation" and "static rotation" fast
paths computes exactly what the fully general per-step rotation loop computes,
for any block whose step counts respect the aligned path length. -/
theorem rotationStage_eq_generalRot (st : Store) (objList : List ℕ)
    (hnd : objList.Nodup) (sensors : List SensorObj)
    (hmem : ∀ s ∈ sensors, s.id ∈ objList)
    (hwf : ∀ s ∈ sensors,
      ((st s.id).orientation).length = ((st s.id).position).length)
    (k_pixel : ℕ) (B : Rank3)
    (hrows : ∀ blk ∈ B, blk.length ≤ maxPathLength st objList) :
    rotationStage (tileStore st objList) sensors
      (sensors.map fun s =>
        ((st s.id).orientation).all (fun r => decide (r = Quat.unit)))
      (check_static_sensor_orient st sensors) k_pixel B =
    rotationStageGeneral (tileStore st objList) sensors k_pixel B := by
  unfold rotationStage rotationStageGeneral
  refine foldl_congr_inv
    (fun B' : Rank3 => ∀ blk ∈ B', blk.length ≤ maxPathLength st objList)
    _ _ sensors.enum B hrows ?_ ?_
  · intro acc isens _ hP
    exact applySensorRotation_rows_le _ _ _ _ _ _ _ _ hP
  · intro acc isens hisens hP
    have hget := List.mem_enum_iff_getElem?.mp hisens
    have hs : isens.2 ∈ sensors := List.snd_mem_of_mem_enum hisens
    have hu : (sensors.map fun s =>
        ((st s.id).orientation).all (fun r => decide (r = Quat.unit))).getD
        isens.1 false =
        ((st isens.2.id).orientation).all (fun r => decide (r = Quat.unit)) := by
      rw [List.getD_eq_getElem?_getD, List.getElem?_map, hget]
      rfl
    have hst : (check_static_sensor_orient st sensors).getD isens.1 false =
        (match (st isens.2.id).orientation with
          | [] => true
          | q :: qs => qs.all (fun r => decide (r = q))) := by
      unfold check_static_sensor_orient
      rw [List.getD_eq_getElem?_getD, List.getElem?_map, hget]
      rfl
    rw [hu, hst]
    exact applySensorRotation_eq_general st objList hnd isens.2 (hmem isens.2 hs)
      (hwf isens.2 hs) isens.1 k_pixel acc hP

/-- C8: the output of `getBH_level2` coincides with the output of the variant that
back-rotates every sensor with the fully general per-path-step inverse rotation:
the "unit rotation" skip is exact because an all-unit orientation path stays
all-unit under tiling and the unit rotation is the identity, and the "static
rotation" single batched rotation is exact because a constant orientation path
stays constant under tiling.  In particular both fast paths of the claim agree
with the general path. -/
theorem rotation_fast_paths_eq_general (K : Kernel) (uninit : Vec3) (bh : Bool)
    (sourcesIn : List SrcInput) (sensors : List SensorObj) (sumup squeeze : Bool)
    (st : Store)
    (hwf : ∀ s ∈ sensors,
      ((st s.id).orientation).length = ((st s.id).position).length) :
    getBH_level2 K uninit bh sourcesIn sensors sumup squeeze st =
      getBH_level2_generalRot K uninit bh sourcesIn sensors sumup squeeze st := by
  simp only [getBH_level2, getBH_level2_aux, getBH_level2_generalRot]
  by_cases hsame : all_same (sensors.map fun s => s.pixShape) = true
  · rw [if_pos hsame, if_pos hsame]
    obtain ⟨B, hB⟩ := evalBuckets_sortSources_isOk K bh
      (tileStore st (participantIds sourcesIn sensors))
      (format_src_inputs sourcesIn).2
      (maxPathLength st (participantIds sourcesIn sensors))
      (((posoSteps (tileStore st (participantIds sourcesIn sensors))
        sensors).flatten).length /
        maxPathLength st (participantIds sourcesIn sensors))
      ((posoSteps (tileStore st (participantIds sourcesIn sensors))
        sensors).flatten).length
      ((posoSteps (tileStore st (participantIds sourcesIn sensors)) sensors).flatten)
      (List.replicate ((format_src_inputs sourcesIn).2).length
        (List.replicate (maxPathLength st (participantIds sourcesIn sensors))
          (List.replicate
            (((posoSteps (tileStore st (participantIds sourcesIn sensors))
              sensors).flatten).length /
              maxPathLength st (participantIds sourcesIn sensors)) uninit)))
    rw [hB]
    dsimp only []
    have hrowsB : ∀ blk ∈ B, blk.length ≤
        maxPathLength st (participantIds sourcesIn sensors) :=
      evalBuckets_rows_le K bh _ _ _ _ _ _ _ B hB (by
        intro blk hblk
        rw [List.eq_of_mem_replicate hblk, List.length_replicate])
    have hrows1 : ∀ blk ∈ (if ((format_src_inputs sourcesIn).1).length <
        ((format_src_inputs sourcesIn).2).length then
        collapseCollections (format_src_inputs sourcesIn).1 B else B),
        blk.length ≤ maxPathLength st (participantIds sourcesIn sensors) := by
      by_cases hc : ((format_src_inputs sourcesIn).1).length <
          ((format_src_inputs sourcesIn).2).length
      · rw [if_pos hc]
        exact collapse_rows_le _ _ B hrowsB
      · rw [if_neg hc]
        exact hrowsB
    rw [rotationStage_eq_generalRot st (participantIds sourcesIn sensors)
      (List.nodup_dedup _) sensors
      (fun s hs => sensor_mem_participantIds sourcesIn sensors s hs) hwf
      ((((sensors.map fun s => s.pixShape).headD []).dropLast).prod) _ hrows1]
  · rw [if_neg hsame, if_neg hsame]

theorem rotation_fast_paths_eq_general_witness :
    getBH_level2 testKernel 0 true [.src srcCuboidA] [sensA] false false stWitA =
      getBH_level2_generalRot testKernel 0 true [.src srcCuboidA] [sensA] false
        false stWitA :=
  rotation_fast_paths_eq_general testKernel 0 true [.src srcCuboidA] [sensA]
    false false stWitA (by decide)

/-- Zipping two equal-length replications applies the function once. -/
theorem zipWith_replicate_both {α β γ : Type} (g : α → β → γ) (n : ℕ) (a : α)
    (b : β) :
    List.zipWith g (List.replicate n a) (List.replicate n b) =
      List.replicate n (g a b) := by
  induction n with
  | zero => rfl
  | succ n ih => simp [List.replicate_succ, ih]

/-- Zipping a replication against an equal-length list maps over the list. -/
theorem zipWith_replicate_left {α β γ : Type} (g : α → β → γ) (a : α) :
    ∀ (l : List β) (n : ℕ), l.length = n →
      List.zipWith g (List.replicate n a) l = l.map (g a) := by
  intro l
  induction l with
  | nil => intro n h; subst h; rfl
  | cons x t ih =>
    intro n h
    subst h
    simp only [List.length_cons, List.replicate_succ, List.zipWith_cons_cons,
      List.map_cons]
    rw [ih t.length rfl]

/-- Flattening a replication of a singleton list is a replication. -/
theorem flatten_replicate_singleton {α : Type} (n : ℕ) (d : α) :
    (List.replicate n ([d] : List α)).flatten = List.replicate n d := by
  induction n with
  | zero => rfl
  | succ n ih => simp [List.replicate_succ, ih]

/-- Flat-mapping a replication over a replication is a replication. -/
theorem flatMap_replicate_replicate {α : Type} (m n : ℕ) (a : α) :
    (List.replicate m a).flatMap (fun p => List.replicate n p) =
      List.replicate (m * n) a := by
  induction m with
  | zero => simp
  | succ m ih =>
    simp only [List.replicate_succ, List.flatMap_cons, ih]
    rw [Nat.succ_mul, Nat.add_comm, List.replicate_add]

/-- A singleton extended by replication of its element is a replication. -/
theorem singleton_append_replicate {α : Type} (m : ℕ) (a : α) (h : 1 ≤ m) :
    ([a] ++ List.replicate (m - 1) a : List α) = List.replicate m a := by
  rcases Nat.exists_eq_add_of_le h with ⟨k, rfl⟩
  simp [List.replicate_succ, Nat.add_comm 1 k]

/-- Block extraction from the flattening of a uniform-width nested list. -/
theorem flatten_extract {α : Type} (n : ℕ) :
    ∀ (L : List (List α)) (j : ℕ), (∀ r ∈ L, r.length = n) → j < L.length →
      ((L.flatten).drop (j * n)).take n = L.getD j [] := by
  intro L
  induction L with
  | nil => intro j _ hj; cases (Nat.not_lt_zero j) hj
  | cons r t ih =>
    intro j h hj
    have hr : r.length = n := h r (List.mem_cons_self r t)
    cases j with
    | zero =>
      simp only [Nat.zero_mul, List.drop_zero, List.flatten_cons, List.getD_cons_zero]
      rw [List.take_append_of_le_length hr.ge, ← hr, List.take_length]
    | succ j' =>
      simp only [List.flatten_cons, List.getD_cons_succ]
      rw [Nat.succ_mul, Nat.add_comm, ← hr, List.drop_append _]
      rw [hr]
      exact ih j' (fun x hx => h x (List.mem_cons_of_mem r hx))
        (by simpa using hj)

/-- Indexing a zip-with with defaults, inside the common range. -/
theorem getD_zipWith {α β γ : Type} (f : α → β → γ) :
    ∀ (l1 : List α) (l2 : List β) (j : ℕ) (d1 : α) (d2 : β) (dc : γ),
      j < l1.length → j < l2.length →
      (List.zipWith f l1 l2).getD j dc = f (l1.getD j d1) (l2.getD j d2) := by
  intro l1
  induction l1 with
  | nil => intro l2 j d1 d2 dc hj1 _; cases (Nat.not_lt_zero j) hj1
  | cons a t ih =>
    intro l2 j d1 d2 dc hj1 hj2
    cases l2 with
    | nil => cases (Nat.not_lt_zero j) hj2
    | cons b t2 =>
      cases j with
      | zero => rfl
      | succ j' =>
        simp only [List.zipWith_cons_cons, List.getD_cons_succ]
        exact ih t2 j' d1 d2 dc (by simpa using hj1) (by simpa using hj2)

/-- On a singleton group of a known kind, the dispatch packs the per-source fields
replicated once per row, the tiled path rows and the whole observer array. -/
theorem get_src_dict_single (st1 : Store) (src : SrcObj) (n_pix n_pp : ℕ)
    (poso : List Vec3) (htag : src.objectType ∈ bucketTags) :
    get_src_dict st1 [src] n_pix n_pp poso = .ok
      { source_type := src.objectType,
        fields := List.replicate n_pp (packFields src),
        position := (st1 src.id).position.flatMap (fun p => List.replicate n_pix p),
        orientation :=
          (st1 src.id).orientation.flatMap (fun r => List.replicate n_pix r),
        observer := poso } := by
  have h' : src.objectType = "Cuboid" ∨ src.objectType = "Cylinder" ∨
      src.objectType = "CylinderSegment" ∨ src.objectType = "Sphere" ∨
      src.objectType = "Dipole" ∨ src.objectType = "Circular" ∨
      src.objectType = "Line" := by
    simpa [bucketTags] using htag
  unfold get_src_dict packFields
  rcases h' with h | h | h | h | h | h | h <;>
    simp only [List.headD_cons, h, tile_mag, tile_dia, tile_dim_cuboid,
      tile_dim_cylinder, tile_dim_cylinder_section, tile_moment, tile_current,
      List.flatMap_cons, List.flatMap_nil, List.append_nil, List.map_cons,
      List.map_nil, flatten_replicate_singleton, zipWith_replicate_both,
      List.map_replicate] <;>
    simp

/-- On a singleton bucket list of a known kind, the bucket evaluation performs one
dispatch, one kernel call, one reshape and one scatter into slot 0. -/
theorem evalBuckets_single (K : Kernel) (bh : Bool) (st1 : Store) (src : SrcObj)
    (m n_pix n_pp : ℕ) (poso : List Vec3) (B0 : Rank3)
    (htag : src.objectType ∈ bucketTags) :
    evalBuckets K bh st1 (sortSources [src]) m n_pix n_pp poso B0 =
      .ok (B0.set 0 (chunks n_pix m ((getBH_level1 K bh
        { source_type := src.objectType,
          fields := List.replicate n_pp (packFields src),
          position :=
            (st1 src.id).position.flatMap (fun p => List.replicate n_pix p),
          orientation :=
            (st1 src.id).orientation.flatMap (fun r => List.replicate n_pix r),
          observer := poso }).take (m * n_pix)))) := by
  have h' : src.objectType = "Cuboid" ∨ src.objectType = "Cylinder" ∨
      src.objectType = "CylinderSegment" ∨ src.objectType = "Sphere" ∨
      src.objectType = "Dipole" ∨ src.objectType = "Circular" ∨
      src.objectType = "Line" := by
    simpa [bucketTags] using htag
  have hd := get_src_dict_single st1 src n_pix n_pp poso htag
  rcases h' with h | h | h | h | h | h | h <;>
    simp [sortSources, bucketTags, h, evalBuckets, hd, scatterGroup, reshapeB,
      chunks, List.enum]

/-- A slice map covering the whole row is a plain map. -/
theorem mapSlice_full {α : Type} (f : α → α) (n : ℕ) (xs : List α)
    (h : xs.length ≤ n) : mapSlice f 0 n xs = xs.map f := by
  simp only [mapSlice, List.take_zero, List.drop_zero, List.nil_append,
    Nat.zero_add]
  rw [List.take_of_length_le h, List.drop_eq_nil_of_le h, List.append_nil]

/-- Mapping an index-dependent function that reads the first zipped list at the
row's own index over the enumeration of a zip-with fuses into a single zip-with. -/
theorem enum_map_zipWith_getD {α β γ δ : Type} (g : α → β → γ) (h : α → γ → δ)
    (d : α) :
    ∀ (l1 : List α) (l2 : List β),
      (List.zipWith g l1 l2).enum.map (fun js => h (l1.getD js.1 d) js.2) =
        List.zipWith (fun a b => h a (g a b)) l1 l2 := by
  intro l1
  induction l1 with
  | nil => intro l2; simp
  | cons a t ih =>
    intro l2
    cases l2 with
    | nil => simp
    | cons b t2 =>
      simp only [List.zipWith_cons_cons, List.enum_cons', List.map_cons,
        List.map_map, List.getD_cons_zero]
      congr 1
      rw [← ih t2]
      refine List.map_congr_left ?_
      intro p hp
      simp [List.getD_cons_succ]

/-- Closed form of the bucket evaluation on a singleton bucket of a known kind when
the tiled source path is a constant replication: every kernel row sees the single
static source state and the reshape recovers exactly the observer step rows. -/
theorem evalBuckets_single_closed (K : Kernel) (bh : Bool) (st1 : Store)
    (src : SrcObj) (m n_pix n_pp : ℕ) (steps : List (List Vec3)) (B0 : Rank3)
    (p0 : Vec3) (q0 : Quat) (htag : src.objectType ∈ bucketTags)
    (hsrc1 : st1 src.id = ⟨List.replicate m p0, List.replicate m q0⟩)
    (hslen : steps.length = m)
    (hrows : ∀ r ∈ steps, r.length = n_pix)
    (hnpp : n_pp = steps.flatten.length) :
    evalBuckets K bh st1 (sortSources [src]) m n_pix n_pp steps.flatten B0 =
      .ok (B0.set 0 (steps.map (List.map
        (fun o => K bh (packFields src) p0 q0 o)))) := by
  have hfl : steps.flatten.length = m * n_pix := by
    rw [length_flatten_uniform steps n_pix hrows, hslen]
  rw [evalBuckets_single K bh st1 src m n_pix n_pp steps.flatten B0 htag]
  have hl1 : getBH_level1 K bh
      { source_type := src.objectType,
        fields := List.replicate n_pp (packFields src),
        position := (st1 src.id).position.flatMap (fun p => List.replicate n_pix p),
        orientation :=
          (st1 src.id).orientation.flatMap (fun r => List.replicate n_pix r),
        observer := steps.flatten } =
      steps.flatten.map (fun o => K bh (packFields src) p0 q0 o) := by
    simp only [getBH_level1, hsrc1, flatMap_replicate_replicate]
    have hz1 : (List.replicate (m * n_pix) q0).zip steps.flatten =
        steps.flatten.map (Prod.mk q0) :=
      zipWith_replicate_left Prod.mk q0 steps.flatten (m * n_pix) hfl
    have hz2 : (List.replicate (m * n_pix) p0).zip
        (steps.flatten.map (Prod.mk q0)) =
        (steps.flatten.map (Prod.mk q0)).map (Prod.mk p0) :=
      zipWith_replicate_left Prod.mk p0 _ (m * n_pix)
        (by rw [List.length_map, hfl])
    rw [hz1, hz2, List.map_map]
    rw [zipWith_replicate_left
      (fun (f : KernelFields) (pro : Vec3 × Quat × Vec3) =>
        K bh f pro.1 pro.2.1 pro.2.2)
      (packFields src) _ n_pp (by rw [List.length_map, hnpp]), List.map_map]
    rfl
  have ht : (steps.flatten.map
      (fun o => K bh (packFields src) p0 q0 o)).take (m * n_pix) =
      steps.flatten.map (fun o => K bh (packFields src) p0 q0 o) := by
    apply List.take_of_length_le
    rw [List.length_map, hfl]
  have hchunks : chunks n_pix m
      ((steps.map (List.map (fun o => K bh (packFields src) p0 q0 o))).flatten) =
      steps.map (List.map (fun o => K bh (packFields src) p0 q0 o)) := by
    have hlen2 : (steps.map (List.map
        (fun o => K bh (packFields src) p0 q0 o))).length = m := by
      rw [List.length_map, hslen]
    rw [← hlen2]
    apply chunks_flatten
    intro c hc
    obtain ⟨r, hr, hcr⟩ := List.mem_map.mp hc
    rw [← hcr, List.length_map]
    exact hrows r hr
  rw [hl1, ht, List.map_flatten, hchunks]

/-- Closed form of the whole pipeline on one static source of a known kind and one
sensor: the call succeeds and its flat data is, step by step along the sensor
path, the back-rotated kernel field of the source's single static state at every
rotated-and-shifted pixel of that step. -/
theorem getBH_single_closed (K : Kernel) (uninit : Vec3) (bh : Bool)
    (src : SrcObj) (sens : SensorObj) (sumup squeeze : Bool) (st : Store)
    (p0 : Vec3) (q0 : Quat)
    (htag : src.objectType ∈ bucketTags) (hne : src.id ≠ sens.id)
    (hsrc : st src.id = ⟨[p0], [q0]⟩)
    (hlen : ((st sens.id).orientation).length = ((st sens.id).position).length)
    (hpos : 1 ≤ ((st sens.id).position).length)
    (hkpix : ((sens.pixShape).dropLast).prod = sens.pixel.length) :
    ∃ sh, (getBH_level2 K uninit bh [.src src] [sens] sumup squeeze st).1 =
      .ok ⟨sh, (List.zipWith (fun r p => sens.pixel.map (fun px =>
          (r.conj).apply (K bh (packFields src) p0 q0 (r.apply px + p))))
        ((st sens.id).orientation) ((st sens.id).position)).flatten⟩ := by
  have hP : participantIds [SrcInput.src src] [sens] = [src.id, sens.id] := by
    show (([src].map (fun s => s.id)) ++ ([sens].map (fun s => s.id))).dedup = _
    simp only [List.map_cons, List.map_nil, List.cons_append, List.nil_append]
    rw [List.dedup_cons_of_not_mem (by simp [hne]),
      List.dedup_cons_of_not_mem (by simp), List.dedup_nil]
  have hnd : ([src.id, sens.id] : List ℕ).Nodup := by simp [hne]
  have hm : maxPathLength st [src.id, sens.id] =
      ((st sens.id).position).length := by
    simp only [maxPathLength, pathLengthsOf, List.map_cons, List.map_nil, hsrc,
      List.foldr_cons, List.foldr_nil, List.length_cons, List.length_nil]
    omega
  have hst1sens : tileStore st [src.id, sens.id] sens.id = st sens.id := by
    rw [tileStore_get st [src.id, sens.id] hnd sens.id, hm]
    rw [if_neg (by rintro ⟨-, -, hc⟩; exact hc rfl)]
  have hst1src : tileStore st [src.id, sens.id] src.id =
      ⟨List.replicate ((st sens.id).position).length p0,
        List.replicate ((st sens.id).position).length q0⟩ := by
    rw [tileStore_get st [src.id, sens.id] hnd src.id, hm, hsrc]
    by_cases h1 : 1 < ((st sens.id).position).length
    · rw [if_pos ⟨h1, by simp, by simp; omega⟩]
      simp only [tilePath, List.length_cons, List.length_nil]
      rw [show ([p0] : List Vec3).getLastD default = p0 from rfl,
        show ([q0] : List Quat).getLastD Quat.unit = q0 from rfl,
        singleton_append_replicate _ _ hpos, singleton_append_replicate _ _ hpos]
    · rw [if_neg (by intro hc; exact h1 hc.1)]
      have hp1 : ((st sens.id).position).length = 1 := by omega
      rw [hp1]
      rfl
  have hps : posoSteps (tileStore st [src.id, sens.id]) [sens] =
      List.zipWith (fun r p => sens.pixel.map (fun px => r.apply px + p))
        ((st sens.id).orientation) ((st sens.id).position) := by
    simp only [posoSteps, List.map_cons, List.map_nil, concatAxis1, sensorPoso,
      hst1sens]
  have hrowsS : ∀ r ∈ List.zipWith
      (fun r p => sens.pixel.map (fun px => r.apply px + p))
      ((st sens.id).orientation) ((st sens.id).position),
      r.length = sens.pixel.length := by
    intro r hr
    obtain ⟨a, -, b, -, rfl⟩ := mem_zipWith_strong _ _ _ _ hr
    rw [List.length_map]
  have hsl : (List.zipWith (fun r p => sens.pixel.map (fun px => r.apply px + p))
      ((st sens.id).orientation) ((st sens.id).position)).length =
      ((st sens.id).position).length := by
    rw [List.length_zipWith, hlen, Nat.min_self]
  have hfl2 : (List.zipWith (fun r p => sens.pixel.map (fun px => r.apply px + p))
      ((st sens.id).orientation) ((st sens.id).position)).flatten.length =
      ((st sens.id).position).length * sens.pixel.length := by
    rw [length_flatten_uniform _ _ hrowsS, hsl]
  have hdiv : (List.zipWith (fun r p => sens.pixel.map (fun px => r.apply px + p))
      ((st sens.id).orientation) ((st sens.id).position)).flatten.length /
      ((st sens.id).position).length = sens.pixel.length := by
    rw [hfl2, Nat.mul_div_cancel_left _ (by omega)]
  have hsame : all_same (List.map (fun s : SensorObj => s.pixShape) [sens]) =
      true := by
    simp [all_same]
  have hfst : (format_src_inputs [SrcInput.src src]).1 = [SrcInput.src src] := rfl
  have h2nd : (format_src_inputs [SrcInput.src src]).2 = [src] := rfl
  simp only [getBH_level2, getBH_level2_aux, hP]
  rw [if_pos hsame]
  simp only [hfst, h2nd, List.length_singleton, hm, hps, hdiv, lt_self_iff_false,
    if_false]
  rw [evalBuckets_single_closed K bh (tileStore st [src.id, sens.id]) src
    ((st sens.id).position).length sens.pixel.length _ _ _ p0 q0 htag hst1src hsl
    hrowsS rfl]
  dsimp only []
  simp only [List.replicate_one, List.set_cons_zero]
  have hkp : (((List.map (fun s : SensorObj => s.pixShape) [sens]).headD
      []).dropLast).prod = sens.pixel.length := by
    simp only [List.map_cons, List.map_nil, List.headD_cons]
    exact hkpix
  simp only [hkp]
  rw [rotationStage_eq_generalRot st [src.id, sens.id] hnd [sens]
    (by intro s hs; rcases List.mem_singleton.mp hs with rfl; simp)
    (by intro s hs; rcases List.mem_singleton.mp hs with rfl; exact hlen)
    sens.pixel.length _
    (by intro blk hblk
        rcases List.mem_singleton.mp hblk with rfl
        rw [List.length_map, hsl, hm])]
  rw [show rotationStageGeneral (tileStore st [src.id, sens.id]) [sens]
      sens.pixel.length
      [(List.zipWith (fun r p => sens.pixel.map (fun px => r.apply px + p))
          ((st sens.id).orientation) ((st sens.id).position)).map
        (List.map (fun o => K bh (packFields src) p0 q0 o))] =
      [((List.zipWith (fun r p => sens.pixel.map (fun px => r.apply px + p))
          ((st sens.id).orientation) ((st sens.id).position)).map
        (List.map (fun o => K bh (packFields src) p0 q0 o))).enum.map (fun js =>
          mapSlice (fun v =>
            ((((tileStore st [src.id, sens.id]) sens.id).orientation.getD js.1
              Quat.unit).conj).apply v)
            (0 * sens.pixel.length) sens.pixel.length js.2)] from rfl]
  simp only [hst1sens, Nat.zero_mul]
  have hA : ((List.zipWith (fun r p => sens.pixel.map (fun px => r.apply px + p))
        ((st sens.id).orientation) ((st sens.id).position)).map
      (List.map (fun o => K bh (packFields src) p0 q0 o))).enum.map (fun js =>
        mapSlice (fun v =>
          ((((st sens.id).orientation).getD js.1 Quat.unit).conj).apply v)
          0 sens.pixel.length js.2) =
      ((List.zipWith (fun r p => sens.pixel.map (fun px => r.apply px + p))
        ((st sens.id).orientation) ((st sens.id).position)).map
      (List.map (fun o => K bh (packFields src) p0 q0 o))).enum.map (fun js =>
        js.2.map (fun v =>
          ((((st sens.id).orientation).getD js.1 Quat.unit).conj).apply v)) := by
    refine List.map_congr_left ?_
    intro js hjs
    have hmem : js.2 ∈ (List.zipWith
        (fun r p => sens.pixel.map (fun px => r.apply px + p))
        ((st sens.id).orientation) ((st sens.id).position)).map
        (List.map (fun o => K bh (packFields src) p0 q0 o)) :=
      List.snd_mem_of_mem_enum hjs
    have hl3 : js.2.length = sens.pixel.length := by
      obtain ⟨r, hr, hjr⟩ := List.mem_map.mp hmem
      rw [← hjr, List.length_map]
      exact hrowsS r hr
    exact mapSlice_full _ _ _ (le_of_eq hl3)
  rw [hA, List.map_zipWith]
  have hC : (List.zipWith (fun r p =>
        (sens.pixel.map (fun px => r.apply px + p)).map
          (fun o => K bh (packFields src) p0 q0 o))
        ((st sens.id).orientation) ((st sens.id).position)).enum.map
      (fun js => js.2.map (fun v =>
        ((((st sens.id).orientation).getD js.1 Quat.unit).conj).apply v)) =
      List.zipWith (fun a b => ((sens.pixel.map (fun px => a.apply px + b)).map
        (fun o => K bh (packFields src) p0 q0 o)).map
          (fun v => (a.conj).apply v))
        ((st sens.id).orientation) ((st sens.id).position) :=
    enum_map_zipWith_getD
      (fun r p => (sens.pixel.map (fun px => r.apply px + p)).map
        (fun o => K bh (packFields src) p0 q0 o))
      (fun a c => c.map (fun v => (a.conj).apply v))
      Quat.unit ((st sens.id).orientation) ((st sens.id).position)
  rw [hC]
  simp only [List.map_map]
  have hdata : ∀ r2 : Rank2, (if sumup then (sumRank2 [r2]).flatten
      else ([r2] : Rank3).flatten.flatten) = r2.flatten := by
    intro r2
    cases sumup <;> simp [sumRank2]
  rw [hdata]
  exact ⟨_, rfl⟩

/-- C7: a source with path length 1 evaluated against a sensor with path length
`m` yields, at every path index `j < m`, exactly the data of the call in which
the sensor's path is restricted to its single state at index `j`: the tiling of
the static source's path by repetition of its final state is invariant under
per-index evaluation. -/
theorem path_tiling_invariance (K : Kernel) (uninit : Vec3) (bh : Bool)
    (src : SrcObj) (sens : SensorObj) (sumup squeeze : Bool) (st : Store)
    (p0 : Vec3) (q0 : Quat) (j : ℕ)
    (htag : src.objectType ∈ bucketTags) (hne : src.id ≠ sens.id)
    (hsrc : st src.id = ⟨[p0], [q0]⟩)
    (hlen : ((st sens.id).orientation).length = ((st sens.id).position).length)
    (hj : j < ((st sens.id).position).length)
    (hkpix : ((sens.pixShape).dropLast).prod = sens.pixel.length) :
    ∃ o o',
      (getBH_level2 K uninit bh [.src src] [sens] sumup squeeze st).1 = .ok o ∧
      (getBH_level2 K uninit bh [.src src] [sens] sumup squeeze
        (st.set sens.id
          ⟨[((st sens.id).position).getD j default],
            [((st sens.id).orientation).getD j Quat.unit]⟩)).1 = .ok o' ∧
      (o.data.drop (j * sens.pixel.length)).take sens.pixel.length = o'.data := by
  obtain ⟨sh, hfull⟩ := getBH_single_closed K uninit bh src sens sumup squeeze st
    p0 q0 htag hne hsrc hlen (by omega) hkpix
  have hset := Store.set_self st sens.id
    ⟨[((st sens.id).position).getD j default],
      [((st sens.id).orientation).getD j Quat.unit]⟩
  have hother : (st.set sens.id
      ⟨[((st sens.id).position).getD j default],
        [((st sens.id).orientation).getD j Quat.unit]⟩) src.id = ⟨[p0], [q0]⟩ := by
    rw [Store.set_other st sens.id src.id _ hne, hsrc]
  obtain ⟨sh', hres⟩ := getBH_single_closed K uninit bh src sens sumup squeeze
    (st.set sens.id ⟨[((st sens.id).position).getD j default],
      [((st sens.id).orientation).getD j Quat.unit]⟩)
    p0 q0 htag hne hother (by rw [hset]; rfl) (by rw [hset]; exact Nat.le_refl 1)
    hkpix
  refine ⟨_, _, hfull, hres, ?_⟩
  dsimp only []
  simp only [hset]
  have hrowsS : ∀ r ∈ List.zipWith (fun r p => sens.pixel.map (fun px =>
      (r.conj).apply (K bh (packFields src) p0 q0 (r.apply px + p))))
      ((st sens.id).orientation) ((st sens.id).position),
      r.length = sens.pixel.length := by
    intro r hr
    obtain ⟨a, -, b, -, rfl⟩ := mem_zipWith_strong _ _ _ _ hr
    rw [List.length_map]
  have hlt : j < (List.zipWith (fun r p => sens.pixel.map (fun px =>
      (r.conj).apply (K bh (packFields src) p0 q0 (r.apply px + p))))
      ((st sens.id).orientation) ((st sens.id).position)).length := by
    rw [List.length_zipWith, hlen, Nat.min_self]
    exact hj
  rw [flatten_extract sens.pixel.length _ j hrowsS hlt]
  rw [getD_zipWith _ _ _ j Quat.unit default _ (by rw [hlen]; exact hj) hj]
  simp only [List.zipWith_cons_cons, List.zipWith_nil_right, List.flatten_cons,
    List.flatten_nil, List.append_nil]

theorem path_tiling_invariance_witness :
    ∃ o o',
      (getBH_level2 testKernel 0 true [.src srcCuboidA] [sensA] false false
        stWitA).1 = .ok o ∧
      (getBH_level2 testKernel 0 true [.src srcCuboidA] [sensA] false false
        (stWitA.set sensA.id
          ⟨[((stWitA sensA.id).position).getD 1 default],
            [((stWitA sensA.id).orientation).getD 1 Quat.unit]⟩)).1 = .ok o' ∧
      (o.data.drop (1 * sensA.pixel.length)).take sensA.pixel.length = o'.data :=
  path_tiling_invariance testKernel 0 true srcCuboidA sensA false false stWitA
    ⟨0, 0, 0⟩ Quat.unit 1 (by decide) (by decide) rfl rfl (by decide) (by decide)

/-- C2 (violated): evaluating a Collection of the two static spheres with
`sumup=True` returns `[(2,0,0), (4,0,0)]`, while the elementwise sum of the
members' individual results, `[(1,0,0),(1,0,0)] + [(2,0,0),(2,0,0)]`, is
`[(3,0,0), (3,0,0)]`: the 1-D `np.tile` in `tile_dia` orders the diameters of a
shared same-type kernel call source-fastest while every other packed tensor is
ordered source-slowest, so the collection sum is not the superposition of its
members. -/
theorem collection_sum_counterexample :
    (getBH_level2 testKernel 0 true [.col [srcSphereA, srcSphereB]] [sensB]
      true false stStatic).1 =
      .ok ⟨[1, 1, 2, 3], [⟨2, 0, 0⟩, ⟨4, 0, 0⟩]⟩ ∧
    (getBH_level2 testKernel 0 true [.src srcSphereA] [sensB]
      true false stStatic).1 =
      .ok ⟨[1, 1, 2, 3], [⟨1, 0, 0⟩, ⟨1, 0, 0⟩]⟩ ∧
    (getBH_level2 testKernel 0 true [.src srcSphereB] [sensB]
      true false stStatic).1 =
      .ok ⟨[1, 1, 2, 3], [⟨2, 0, 0⟩, ⟨2, 0, 0⟩]⟩ ∧
    List.zipWith (fun u v : Vec3 => u + v)
      [⟨1, 0, 0⟩, ⟨1, 0, 0⟩] [⟨2, 0, 0⟩, ⟨2, 0, 0⟩] ≠
      ([⟨2, 0, 0⟩, ⟨4, 0, 0⟩] : List Vec3) := by
  refine ⟨?_, ?_, ?_, ?_⟩ <;>
    simp +decide [getBH_level2, getBH_level2_aux, participantIds,
      format_src_inputs, all_same, check_static_sensor_orient, maxPathLength,
      pathLengthsOf, resetPairsOf, tileStore, tilePath, tileObj, restoreStore,
      restoreObj, posoSteps, concatAxis1, sensorPoso, sortSources, bucketTags,
      evalBuckets, get_src_dict, tile_mag, tile_dia, getBH_level1, chunks,
      reshapeB, scatterGroup, collapseCollections, sumRank2, addRank2,
      rotationStage, applySensorRotation, sensorRotAt, mapSlice, Quat.apply,
      Quat.conj, Quat.normSq, Quat.vec, Vec3.cross, Vec3.add_def, Vec3.smul_def,
      packFields, Store.set, stStatic, srcSphereA, srcSphereB, sensB, testKernel,
      Quat.unit, List.enum, List.enumFrom, List.foldlM, Except.bind, Bind.bind,
      Except.pure, Pure.pure] <;>
    norm_num

/-- C3 (violated): with the two static single-point spheres and a two-pixel
sensor, the joint call returns the rows `[(1,0,0),(2,0,0)]` for BOTH leading-axis
blocks, while each source alone gives `[(1,0,0),(1,0,0)]` respectively
`[(2,0,0),(2,0,0)]`: row 0 of the joint result is not the result of evaluating
source 0 alone, because `tile_dia` interleaves the grouped diameters across the
pixel rows (source index fastest) while the kernel's other tensors use per-source
blocks (source index slowest). -/
theorem source_order_row_counterexample :
    (getBH_level2 testKernel 0 true [.src srcSphereA, .src srcSphereB] [sensB]
      false false stStatic).1 =
      .ok ⟨[2, 1, 1, 2, 3], [⟨1, 0, 0⟩, ⟨2, 0, 0⟩, ⟨1, 0, 0⟩, ⟨2, 0, 0⟩]⟩ ∧
    (getBH_level2 testKernel 0 true [.src srcSphereA] [sensB]
      false false stStatic).1 =
      .ok ⟨[1, 1, 1, 2, 3], [⟨1, 0, 0⟩, ⟨1, 0, 0⟩]⟩ ∧
    ([⟨1, 0, 0⟩, ⟨2, 0, 0⟩, ⟨1, 0, 0⟩, ⟨2, 0, 0⟩] : List Vec3).take 2 ≠
      [⟨1, 0, 0⟩, ⟨1, 0, 0⟩] := by
  refine ⟨?_, ?_, by decide⟩ <;>
    simp +decide [getBH_level2, getBH_level2_aux, participantIds,
      format_src_inputs, all_same, check_static_sensor_orient, maxPathLength,
      pathLengthsOf, resetPairsOf, tileStore, tilePath, tileObj, restoreStore,
      restoreObj, posoSteps, concatAxis1, sensorPoso, sortSources, bucketTags,
      evalBuckets, get_src_dict, tile_mag, tile_dia, getBH_level1, chunks,
      reshapeB, scatterGroup, collapseCollections, sumRank2, addRank2,
      rotationStage, applySensorRotation, sensorRotAt, mapSlice, Quat.apply,
      Quat.conj, Quat.normSq, Quat.vec, Vec3.cross, Vec3.add_def, Vec3.smul_def,
      packFields, Store.set, stStatic, srcSphereA, srcSphereB, sensB, testKernel,
      Quat.unit, List.enum, List.enumFrom, List.foldlM, Except.bind, Bind.bind,
      Except.pure, Pure.pure]

/-- C5 (violated): the dispatch itself rejects the unknown tag `"Facet"` with the
internal error, but the grouping loop of `getBH_level2` has no else branch: a
source with an unknown tag falls into no bucket, `get_src_dict` is never reached
from the pipeline, and the call silently returns the uninitialized `np.empty`
rows unchanged — for every value `u` of the uninitialized memory — instead of
reporting a fatal error. -/
theorem unknown_tag_silently_skipped :
    get_src_dict stStatic [srcFacet] 2 2 [] = .error Err.internalError ∧
    ∀ u : Vec3,
      (getBH_level2 testKernel u true [.src srcFacet] [sensB] false false
        stStatic).1 = .ok ⟨[1, 1, 1, 2, 3], [u, u]⟩ := by
  refine ⟨rfl, fun u => ?_⟩
  simp +decide [getBH_level2, getBH_level2_aux, participantIds,
    format_src_inputs, all_same, check_static_sensor_orient, maxPathLength,
    pathLengthsOf, resetPairsOf, tileStore, tilePath, tileObj, restoreStore,
    restoreObj, posoSteps, concatAxis1, sensorPoso, sortSources, bucketTags,
    evalBuckets, get_src_dict, tile_mag, tile_dia, getBH_level1, chunks,
    reshapeB, scatterGroup, collapseCollections, sumRank2, addRank2,
    rotationStage, applySensorRotation, sensorRotAt, mapSlice, Quat.apply,
    Quat.conj, Quat.normSq, Quat.vec, Vec3.cross, Vec3.add_def, Vec3.smul_def,
    packFields, Store.set, stStatic, srcFacet, sensB, testKernel, Quat.unit,
    List.enum, List.enumFrom, List.foldlM, Except.bind, Bind.bind, Except.pure,
    Pure.pure]

end Magpylib
